import Mathlib

/-!
Verification of the DiskTrend scan engine (`src/disktrend/`): a shallow
embedding of `scanner.py` (the bottom-up directory aggregator), `models.py`
(the SQLite persistence layer and the growth query) and the concurrency guard
of `scheduler.py`, together with proofs of the specification's claims about
them.

The filesystem seen by one scan is modelled as a tree (`FSTree`): each
directory carries the outcome of `os.scandir` on it (`listable`) and, for each
file directly inside it, the outcome of `os.lstat` (`StatResult`).  Paths are
ordinary strings built with `pjoin`, which models `os.path.join` for the
relative names produced by the walk.  String primitives that CPython provides
(`startswith`, `endswith`, `basename`) are re-implemented over the character
list of the string so that all definitions evaluate by kernel reduction.
-/

namespace DiskTrend

/-- Models Python `str.startswith(pre)`. -/
def strStartsWith (s pre : String) : Bool := pre.data.isPrefixOf s.data

/-- Models Python `str.endswith(suf)`. -/
def strEndsWith (s suf : String) : Bool := suf.data.isSuffixOf s.data

/-- Models `os.path.join(p, n)` for a relative component `n`, as used by
`os.walk` and by `os.path.join(root, filename)` in the scanner. -/
def pjoin (p n : String) : String :=
  if strEndsWith p "/" then p ++ n else p ++ "/" ++ n

/-- The absolute path of the directory reached from `mount` through the
relative components `segs` (the walk joins one component at a time). -/
def render (mount : String) (segs : List String) : String :=
  segs.foldl pjoin mount

/-- Models `os.path.basename`: everything after the last slash. -/
def basename (s : String) : String :=
  ⟨(s.data.reverse.takeWhile (fun c => c ≠ '/')).reverse⟩

/-- Models `os.path.basename(root) or root` (line 125 of `scanner.py`). -/
def entry_name (root : String) : String :=
  if basename root = "" then root else basename root

/-- Outcome of the `os.lstat` call on one file: either a size, or the raised
exception's class name and message. -/
inductive StatResult where
  | ok (size : Nat)
  | err (etype : String) (emsg : String)
deriving Repr, DecidableEq

/-- One directory entry of `os.scandir` that is classified as a file. -/
structure FileEnt where
  name : String
  stat : StatResult
deriving Repr, DecidableEq

/-- The filesystem subtree rooted at one directory.  `listable = false` means
`os.scandir` on this directory raises (permission denied, vanished, or a
symlink that the walk does not follow): `os.walk` then reports the error to
`onerror` and yields nothing for the directory or anything beneath it. -/
inductive FSTree where
  | node (name : String) (listable : Bool) (files : List FileEnt) (subdirs : List FSTree)
deriving Repr

mutual
def FSTree.beq : FSTree → FSTree → Bool
  | .node n1 l1 f1 s1, .node n2 l2 f2 s2 =>
      n1 == n2 && l1 == l2 && f1 == f2 && beqForest s1 s2

def beqForest : List FSTree → List FSTree → Bool
  | [], [] => true
  | c :: cs, d :: ds => FSTree.beq c d && beqForest cs ds
  | _, _ => false
end

mutual
theorem FSTree.beq_iff : ∀ a b : FSTree, FSTree.beq a b = true ↔ a = b
  | .node n1 l1 f1 s1, .node n2 l2 f2 s2 => by
    simp only [FSTree.beq, Bool.and_eq_true, beq_iff_eq, FSTree.node.injEq]
    constructor
    · rintro ⟨⟨⟨h1, h2⟩, h3⟩, h4⟩
      exact ⟨h1, h2, h3, (beqForest_iff s1 s2).mp h4⟩
    · rintro ⟨h1, h2, h3, h4⟩
      exact ⟨⟨⟨h1, h2⟩, h3⟩, (beqForest_iff s1 s2).mpr h4⟩

theorem beqForest_iff : ∀ as bs : List FSTree, beqForest as bs = true ↔ as = bs
  | [], [] => by simp [beqForest]
  | [], _ :: _ => by simp [beqForest]
  | _ :: _, [] => by simp [beqForest]
  | c :: cs, d :: ds => by
    simp only [beqForest, Bool.and_eq_true, List.cons.injEq]
    exact and_congr (FSTree.beq_iff c d) (beqForest_iff cs ds)
end

instance : DecidableEq FSTree := fun a b => decidable_of_iff _ (FSTree.beq_iff a b)

def FSTree.name : FSTree → String
  | .node n _ _ _ => n

def FSTree.listable : FSTree → Bool
  | .node _ l _ _ => l

def FSTree.files : FSTree → List FileEnt
  | .node _ _ fs _ => fs

def FSTree.subdirs : FSTree → List FSTree
  | .node _ _ _ sd => sd

/-- One `(root, dirs, files)` triple yielded by `os.walk`; `segs` is the
directory's path relative to the mount point (`dirs`/`files` are recovered
from `node`). -/
structure WalkItem where
  segs : List String
  node : FSTree
deriving Repr, DecidableEq

mutual
/-- Models `os.walk(mount_point, topdown=False, onerror=self._walk_error_handler)`:
a post-order traversal.  Every subdirectory is attempted; a directory whose
listing fails only triggers `_walk_error_handler` — which writes a warning to
the application logger and nothing else — and contributes no triple. -/
def FSTree.walk : FSTree → List String → List WalkItem
  | .node _ false _ _, _ => []
  | .node n true fs sd, segs => walkForest sd segs ++ [⟨segs, .node n true fs sd⟩]

/-- The walk of a list of sibling subtrees, in listed order. -/
def walkForest : List FSTree → List String → List WalkItem
  | [], _ => []
  | c :: cs, segs => c.walk (segs ++ [c.name]) ++ walkForest cs segs
end

/-- The built-in virtual-filesystem skip set of `DiskScanner.__init__`. -/
def default_skip : List String :=
  ["/proc", "/sys", "/dev", "/run", "/snap", "/var/snap", "/tmp", "/var/tmp"]

/-- Models `DiskScanner.__init__`: `self.skip_paths = set(skip_paths or [])`
followed by `self.skip_paths.update(self.default_skip)` — the scanner's skip
set is always the union of the configured paths and `default_skip` (sets are
used only through membership, so a list with possible duplicates is a faithful
model). -/
def skipSet (skip_paths : List String) : List String :=
  skip_paths ++ default_skip

/-- Models `DiskScanner._should_skip`: exact membership, then
`path.startswith(skip + '/')` for each configured skip path. -/
def should_skip (skips : List String) (path : String) : Bool :=
  if path ∈ skips then true
  else skips.any (fun skip => strStartsWith path (skip ++ "/"))

/-- Models `DiskScanner._get_depth(path, base_path)`: `0` when the path is the
base itself, otherwise `len(os.path.relpath(path, base_path).split(os.sep))`.
The walk only ever calls it on `path = render base_path segs`, for which
`relpath` returns exactly the components `segs`, so the result is their
count. -/
def get_depth (segs : List String) : Nat := segs.length

/-- The scanner configuration fixed for the duration of one `scan` call:
the normalized mount point, the union skip set, and `max_depth`. -/
structure ScanCfg where
  mount : String
  skips : List String
  max_depth : Nat

/-- The depth/skip test of the loop body (lines 115–120 of `scanner.py`):
the directory is given an entry iff it is neither skipped nor beyond a
positive `max_depth`. -/
def emit_cond (cfg : ScanCfg) (segs : List String) : Bool :=
  !should_skip cfg.skips (render cfg.mount segs) &&
    !(decide (0 < cfg.max_depth) && decide (cfg.max_depth < get_depth segs))

example :
    (FSTree.node "r" true [] [FSTree.node "a" true [] []]).walk [] =
      [⟨["a"], FSTree.node "a" true [] []⟩, ⟨[], FSTree.node "r" true [] [FSTree.node "a" true [] []]⟩] := by
  decide

example : render "/data" ["a", "b"] = "/data/a/b" := by decide

example : should_skip (skipSet []) "/var/tmpX" = false := by decide

example : should_skip (skipSet []) "/var/tmp/x" = true := by decide

/-- One row of the `entries` table / one `dir_entry` dict of the scan loop
(lines 122–132 of `scanner.py`; the snapshot id is attached on insert).  The
scan loop never sets the optional `error` column, so it stays `none`. -/
structure Entry where
  path : String
  name : String
  size : Nat
  file_count : Nat
  dir_count : Nat
  depth : Nat
  parent_path : Option String
  is_dir : Nat
  error : Option String
deriving Repr, DecidableEq

/-- One row of the `scan_errors` table (the `timestamp` column defaults to the
insertion time and is never read by the code under verification). -/
structure ScanError where
  snapshot_id : Nat
  path : String
  error_type : String
  error_message : String
deriving Repr, DecidableEq

/-- One row of the `snapshots` table.  Timestamps are abstract ticks; the ISO
strings the code stores compare chronologically, which is all
`ORDER BY completed_at` uses. -/
structure SnapRow where
  id : Nat
  mount_point : String
  started_at : Nat
  completed_at : Option Nat
  total_size : Nat
  total_files : Nat
  total_dirs : Nat
  status : String
deriving Repr, DecidableEq

/-- The SQLite database content: the three tables, plus the AUTOINCREMENT
cursor for `snapshots.id`.  `entries` rows are tagged with their snapshot id. -/
structure DB where
  nextId : Nat
  snapshots : List SnapRow
  entries : List (Nat × Entry)
  scan_errors : List ScanError
deriving Repr, DecidableEq

def emptyDB : DB := ⟨1, [], [], []⟩

/-- Basic well-formedness that AUTOINCREMENT guarantees: every stored id is
below the cursor. -/
def DB.wf (db : DB) : Prop :=
  (∀ r ∈ db.snapshots, r.id < db.nextId) ∧
    (∀ p ∈ db.entries, p.1 < db.nextId) ∧
    (∀ er ∈ db.scan_errors, er.snapshot_id < db.nextId)

instance (db : DB) : Decidable db.wf := by unfold DB.wf; infer_instance

/-- Models `Database.create_snapshot`: insert a `running` row with zero totals
and return its fresh id. -/
def DB.create_snapshot (db : DB) (mount_point : String) (now : Nat) : Nat × DB :=
  (db.nextId,
   { db with
     nextId := db.nextId + 1,
     snapshots := db.snapshots ++
       [{ id := db.nextId, mount_point := mount_point, started_at := now,
          completed_at := none, total_size := 0, total_files := 0,
          total_dirs := 0, status := "running" }] })

/-- Models `Database.complete_snapshot`: set completion time, totals and
`status = 'completed'` on the row with the given id. -/
def DB.complete_snapshot (db : DB) (sid : Nat) (total_size total_files total_dirs : Nat)
    (now : Nat) : DB :=
  { db with
    snapshots := db.snapshots.map (fun r =>
      if r.id = sid then
        { r with completed_at := some now, total_size := total_size,
                 total_files := total_files, total_dirs := total_dirs,
                 status := "completed" }
      else r) }

/-- Models `Database.fail_snapshot`: set completion time and
`status = 'failed'`, and insert one `scan_errors` row with the fixed path `'/'`
and the fixed type `'FATAL'` carrying the reason text. -/
def DB.fail_snapshot (db : DB) (sid : Nat) (error : String) (now : Nat) : DB :=
  { db with
    snapshots := db.snapshots.map (fun r =>
      if r.id = sid then { r with completed_at := some now, status := "failed" } else r),
    scan_errors := db.scan_errors ++ [⟨sid, "/", "FATAL", error⟩] }

/-- Models `Database.insert_entries_batch`: append the batch, each entry tagged
with the snapshot id, in one transaction (an empty batch is a no-op, matching
the early return). -/
def DB.insert_entries_batch (db : DB) (sid : Nat) (es : List Entry) : DB :=
  { db with entries := db.entries ++ es.map (fun e => (sid, e)) }

/-- Models `Database.log_error`: append one `scan_errors` row. -/
def DB.log_error (db : DB) (sid : Nat) (path error_type message : String) : DB :=
  { db with scan_errors := db.scan_errors ++ [⟨sid, path, error_type, message⟩] }

/-- The entries of one snapshot, in insertion order. -/
def DB.entriesOf (db : DB) (sid : Nat) : List Entry :=
  (db.entries.filter (fun p => p.1 == sid)).map Prod.snd

/-- The `stats` dict accumulated by `DiskScanner.scan` (timestamps omitted:
no claim mentions them). -/
structure Stats where
  total_size : Nat
  total_files : Nat
  total_dirs : Nat
  errors : Nat
deriving Repr, DecidableEq

/-- Accumulator of the per-file loop (lines 134–150 of `scanner.py`): the
file-derived part of `dir_entry`, the running error count, and the database
the errors are logged to. -/
structure FileAcc where
  size : Nat
  file_count : Nat
  errors : Nat
  db : DB
deriving Repr

/-- One iteration of the per-file loop: `os.lstat` without following symlinks;
on success add the size and count the file, on `OSError`/`PermissionError`
count one error and `log_error(snapshot_id, filepath, type(e).__name__, str(e))`. -/
def processFile (sid : Nat) (root : String) (acc : FileAcc) (f : FileEnt) : FileAcc :=
  match f.stat with
  | .ok sz => { acc with size := acc.size + sz, file_count := acc.file_count + 1 }
  | .err etype emsg =>
      { acc with errors := acc.errors + 1,
                 db := acc.db.log_error sid (pjoin root f.name) etype emsg }

/-- The whole per-file loop over the `files` of one visited directory. -/
def processFiles (sid : Nat) (root : String) (files : List FileEnt) (db : DB) : FileAcc :=
  files.foldl (processFile sid root) ⟨0, 0, 0, db⟩

/-- The per-subdirectory loop (lines 152–159): for each listed child name,
look the child path up in `dir_sizes` and, when present, add its aggregates
(`dir_count` also counts the child itself). -/
def addChildren (dirSizes : List (String × Entry)) (root : String)
    (dirnames : List String) (e : Entry) : Entry :=
  dirnames.foldl (fun acc dn =>
    match dirSizes.lookup (pjoin root dn) with
    | some sub =>
        { acc with size := acc.size + sub.size,
                   file_count := acc.file_count + sub.file_count,
                   dir_count := acc.dir_count + sub.dir_count + 1 }
    | none => acc) e

/-- The mutable state of one `scan` call while the walk loop runs:
the database connection, the snapshot id, the in-memory `dir_sizes` dict
(modelled as an association list whose most recent binding wins, like a Python
dict), the pending `entries_batch`, and `stats`. -/
structure ScanState where
  db : DB
  sid : Nat
  dirSizes : List (String × Entry)
  batch : List Entry
  stats : Stats
deriving Repr

/-- `BATCH_SIZE = 1000`. -/
def BATCH_SIZE : Nat := 1000

/-- The body of the walk loop (lines 115–180 of `scanner.py`) for one yielded
`(root, dirs, files)` triple: skip test, depth test, file loop, child
aggregation, store into `dir_sizes`, batch, and flush when the batch reaches
`BATCH_SIZE` (the progress callback has no effect on any modelled state). -/
def stepDir (cfg : ScanCfg) (st : ScanState) (w : WalkItem) : ScanState :=
  let root := render cfg.mount w.segs
  if should_skip cfg.skips root then st
  else if 0 < cfg.max_depth ∧ cfg.max_depth < get_depth w.segs then st
  else
    let depth := get_depth w.segs
    let fa := processFiles st.sid root w.node.files st.db
    let e0 : Entry :=
      { path := root, name := entry_name root, size := fa.size,
        file_count := fa.file_count, dir_count := 0, depth := depth,
        parent_path := if w.segs = [] then none
                       else some (render cfg.mount w.segs.dropLast),
        is_dir := 1, error := none }
    let e := addChildren st.dirSizes root (w.node.subdirs.map FSTree.name) e0
    let st' : ScanState :=
      { db := fa.db, sid := st.sid,
        dirSizes := (root, e) :: st.dirSizes,
        batch := st.batch ++ [e],
        stats := { total_size := st.stats.total_size + fa.size,
                   total_files := st.stats.total_files + fa.file_count,
                   total_dirs := st.stats.total_dirs + 1,
                   errors := st.stats.errors + fa.errors } }
    if BATCH_SIZE ≤ st'.batch.length then
      { st' with db := st'.db.insert_entries_batch st'.sid st'.batch, batch := [] }
    else st'

/-- The walk loop with the cooperative-cancellation check: `self._cancelled`
is read once at the top of each iteration; `cancel i` is the value the flag
has when iteration `i` starts (the flag is set from outside the loop by
`DiskScanner.cancel`).  Returns the state at loop exit and whether the loop
was left through the `break`. -/
def scanLoop (cfg : ScanCfg) (cancel : Nat → Bool) :
    List WalkItem → Nat → ScanState → ScanState × Bool
  | [], _, st => (st, false)
  | w :: ws, i, st =>
      if cancel i then (st, true)
      else scanLoop cfg cancel ws (i + 1) (stepDir cfg st w)

/-- Models one call of `DiskScanner.scan(mount_point)` on a scanner freshly
constructed with the given skip paths and depth limit.  `fs = none` models
`os.path.isdir(mount_point)` being false (the mount point is taken to be
already absolute, as `os.path.abspath` leaves absolute paths unchanged);
`fs = some t` gives the filesystem tree the walk observes.  Returns what the
caller sees (`raise` as `.error`, the returned `stats` as `.ok`) and the final
database. -/
def scan (skip_paths : List String) (max_depth : Nat) (mount_point : String)
    (fs : Option FSTree) (cancel : Nat → Bool) (db : DB) (now : Nat) :
    Except String Stats × DB :=
  match fs with
  | none => (.error ("Mount point does not exist: " ++ mount_point), db)
  | some t =>
      let cfg : ScanCfg := ⟨mount_point, skipSet skip_paths, max_depth⟩
      let (sid, db1) := db.create_snapshot mount_point now
      let st0 : ScanState := ⟨db1, sid, [], [], ⟨0, 0, 0, 0⟩⟩
      let (st, cancelled) := scanLoop cfg cancel (t.walk []) 0 st0
      let st :=
        if st.batch = [] then st
        else { st with db := st.db.insert_entries_batch st.sid st.batch, batch := [] }
      if cancelled then
        (.ok st.stats, st.db.fail_snapshot st.sid "Cancelled by user" now)
      else
        (.ok st.stats,
         st.db.complete_snapshot st.sid st.stats.total_size st.stats.total_files
           st.stats.total_dirs now)

/-- Models `DiskScanner.scan` when a call inside the walk loop — a storage
operation or the progress callback — raises an exception with text `msg` after
the first `k` directories have been processed: control jumps to the `except`
clause, so the pending batch is not flushed, `fail_snapshot` runs, and the
exception is re-raised to the caller. -/
def scanExc (skip_paths : List String) (max_depth : Nat) (mount_point : String)
    (t : FSTree) (k : Nat) (msg : String) (db : DB) (now : Nat) :
    Except String Stats × DB :=
  let cfg : ScanCfg := ⟨mount_point, skipSet skip_paths, max_depth⟩
  let (sid, db1) := db.create_snapshot mount_point now
  let st0 : ScanState := ⟨db1, sid, [], [], ⟨0, 0, 0, 0⟩⟩
  let (st, _) := scanLoop cfg (fun _ => false) ((t.walk []).take k) 0 st0
  (.error msg, st.db.fail_snapshot sid msg now)

/-- Models SQLite `ROUND(x, 2)`: two decimal digits, halves rounded away from
zero (exact for the double-precision values this query produces). -/
def round2 (x : ℚ) : ℚ :=
  (if 0 ≤ x then ((⌊x * 100 + 1/2⌋ : ℤ) : ℚ) else -((⌊-x * 100 + 1/2⌋ : ℤ) : ℚ)) / 100

/-- Insertion into a list kept in descending `key` order. -/
def insertDesc {α : Type} (key : α → Int) (x : α) : List α → List α
  | [] => [x]
  | y :: ys => if key y < key x then x :: y :: ys else y :: insertDesc key x ys

/-- A descending sort by `key`, modelling SQL `ORDER BY key DESC` (SQL fixes
no order among equal keys, so any descending order is faithful). -/
def sortDesc {α : Type} (key : α → Int) (l : List α) : List α :=
  l.foldr (insertDesc key) []

/-- The completed snapshots in `ORDER BY completed_at DESC` order (a completed
row always has a completion time; `getD` only totalizes the key). -/
def completed_snapshots (db : DB) : List SnapRow :=
  sortDesc (fun r => (r.completed_at.getD 0 : Int))
    (db.snapshots.filter (fun r => r.status == "completed"))

/-- One output row of the `get_top_growth` query. -/
structure GrowthRow where
  path : String
  name : String
  current_size : Nat
  previous_size : Option Nat
  growth : Int
  growth_percent : ℚ
deriving Repr, DecidableEq

/-- The SELECT list of `Database.get_top_growth` for one entry `p` of the
latest snapshot.  `previous? = none` models the scalar subquery
`(SELECT id FROM previous)` evaluating to NULL (fewer than two completed
snapshots): the LEFT JOIN condition is then unknown for every row, so
`prev.size` is NULL.  Entry paths are unique within a snapshot (the scanner
stores one entry per visited directory), so the join matches at most one row,
modelled by `find?`.  `growth` is `curr.size - COALESCE(prev.size, 0)`;
`growth_percent` is `ROUND((curr.size - prev.size) * 100.0 / prev.size, 2)`
when `prev.size > 0` and the fixed `100.0` otherwise (also when NULL). -/
def growthRowOf (db : DB) (previous? : Option SnapRow) (p : Nat × Entry) : GrowthRow :=
  let prevSize? : Option Nat :=
    match previous? with
    | none => none
    | some prev =>
        (db.entries.find? (fun q => q.2.path == p.2.path && q.1 == prev.id)).map
          (fun q => q.2.size)
  { path := p.2.path, name := p.2.name, current_size := p.2.size,
    previous_size := prevSize?,
    growth := (p.2.size : Int) - (prevSize?.getD 0 : Nat),
    growth_percent :=
      match prevSize? with
      | some ps => if 0 < ps then round2 (((p.2.size : ℚ) - (ps : ℚ)) * 100 / ps) else 100
      | none => 100 }

/-- Models `Database.get_top_growth(limit)`: take the two most recent completed
snapshots (`recent`), split them into `latest` and `previous`
(`LIMIT 1 OFFSET 1`); select the directory entries of the latest snapshot, left
join the previous snapshot's entry with the same path, keep the rows whose
`growth` is strictly positive (`WHERE ... > 0`), order by `growth DESC` and
apply `LIMIT`.  With no completed snapshot `latest` is NULL and the WHERE
clause eliminates every row. -/
def get_top_growth (db : DB) (limit : Nat) : List GrowthRow :=
  let recent := (completed_snapshots db).take 2
  match recent.head? with
  | none => []
  | some latest =>
      let previous? := recent[1]?
      let curr := db.entries.filter (fun p => p.1 == latest.id && p.2.is_dir == 1)
      let rows := (curr.map (growthRowOf db previous?)).filter (fun r => 0 < r.growth)
      (sortDesc GrowthRow.growth rows).take limit

/-- The `asyncio.Task` handle as far as the scheduler's guard inspects it. -/
structure ScanTask where
  done : Bool
deriving Repr, DecidableEq

/-- The `ScanScheduler` state relevant to its concurrency guard: the
`_scan_task` attribute.  `__init__` sets it to `None`, and no other statement
anywhere in the codebase ever assigns it, so it is `none` in every reachable
state. -/
structure SchedulerState where
  scan_task : Option ScanTask
deriving Repr, DecidableEq

/-- Models `ScanScheduler.__init__`: `self._scan_task = None`. -/
def schedulerInit : SchedulerState := ⟨none⟩

/-- Models the guard at the top of `ScanScheduler.trigger_scan`:
`if self._scan_task and not self._scan_task.done(): raise RuntimeError(...)` —
`true` means the call raises `"A scan is already in progress"`. -/
def trigger_scan_rejects (s : SchedulerState) : Bool :=
  match s.scan_task with
  | some t => !t.done
  | none => false

/-- Models `ScanScheduler.is_scan_running` (also used by the HTTP handler
`POST /api/scan` to answer 409): `_scan_task is not None and not done()`. -/
def is_scan_running (s : SchedulerState) : Bool :=
  match s.scan_task with
  | some t => !t.done
  | none => false

/-- The `DiskScanner` instance flags set by `__init__`. -/
structure ScannerState where
  running : Bool
  cancelled : Bool
deriving Repr, DecidableEq

/-- Models `DiskScanner.__init__` (also the scanner freshly constructed by
`run_scan` on every `trigger_scan` call): `self._running = False`. -/
def scannerInit : ScannerState := ⟨false, false⟩

/-- Models the guard at the top of `DiskScanner.scan` (lines 76–77):
`if self._running: raise RuntimeError("Scan already in progress")`. -/
def scan_guard_rejects (s : ScannerState) : Bool := s.running

/-- Sum of the sizes the per-file loop reads successfully. -/
def fileSizeSum (files : List FileEnt) : Nat :=
  (files.map (fun f => match f.stat with | .ok sz => sz | .err _ _ => 0)).sum

/-- Number of files whose `os.lstat` succeeds. -/
def fileOkCount (files : List FileEnt) : Nat :=
  (files.filter (fun f => match f.stat with | .ok _ => true | .err _ _ => false)).length

/-- The `scan_errors` rows the per-file loop logs, in file order. -/
def fileErrList (sid : Nat) (root : String) (files : List FileEnt) : List ScanError :=
  files.filterMap (fun f =>
    match f.stat with
    | .ok _ => none
    | .err t m => some ⟨sid, pjoin root f.name, t, m⟩)

/-- The walk loop without cancellation, as a fold of its body. -/
def scanFold (cfg : ScanCfg) (st : ScanState) (ws : List WalkItem) : ScanState :=
  ws.foldl (stepDir cfg) st

/-- The prefix of the walk the loop processes before the cancellation check
first reads `true` (all of it when the flag never reads `true`). -/
def takeUntilCancel (cancel : Nat → Bool) : List WalkItem → Nat → List WalkItem
  | [], _ => []
  | w :: ws, i => if cancel i then [] else w :: takeUntilCancel cancel ws (i + 1)

/-- Whether the loop over these items leaves through the cancellation break. -/
def loopCancelled (cancel : Nat → Bool) : List WalkItem → Nat → Bool
  | [], _ => false
  | _ :: ws, i => if cancel i then true else loopCancelled cancel ws (i + 1)

mutual
/-- The entry the scan computes for a visited directory, expressed recursively
over the tree: file sums of this directory plus the aggregates of exactly
those immediate children for which an entry was emitted. -/
def agg (cfg : ScanCfg) : FSTree → List String → Entry
  | .node _ _ fs sd, segs =>
      let root := render cfg.mount segs
      let kids := aggKids cfg sd segs
      { path := root, name := entry_name root,
        size := fileSizeSum fs + kids.1,
        file_count := fileOkCount fs + kids.2.1,
        dir_count := kids.2.2,
        depth := get_depth segs,
        parent_path := if segs = [] then none else some (render cfg.mount segs.dropLast),
        is_dir := 1, error := none }

/-- Summed `(size, file_count, dir_count)` contributions of the emitted
children among `sd` (a child contributes `dir_count + 1`). -/
def aggKids (cfg : ScanCfg) : List FSTree → List String → Nat × Nat × Nat
  | [], _ => (0, 0, 0)
  | c :: cs, segs =>
      let rest := aggKids cfg cs segs
      if c.listable && emit_cond cfg (segs ++ [c.name]) then
        let e := agg cfg c (segs ++ [c.name])
        (e.size + rest.1, e.file_count + rest.2.1, e.dir_count + 1 + rest.2.2)
      else rest
end

mutual
/-- The `(path, entry)` pairs the scan emits for the subtree rooted at `segs`,
in emission (post-) order. -/
def emitEntries (cfg : ScanCfg) : FSTree → List String → List (String × Entry)
  | .node _ false _ _, _ => []
  | .node n true fs sd, segs =>
      emitForest cfg sd segs ++
        (if emit_cond cfg segs then
          [(render cfg.mount segs, agg cfg (.node n true fs sd) segs)]
        else [])

/-- Emitted `(path, entry)` pairs of a list of sibling subtrees. -/
def emitForest (cfg : ScanCfg) : List FSTree → List String → List (String × Entry)
  | [], _ => []
  | c :: cs, segs => emitEntries cfg c (segs ++ [c.name]) ++ emitForest cfg cs segs
end

mutual
/-- Every node path of the subtree (visited or not), pre-order. -/
def allPaths (mount : String) : FSTree → List String → List String
  | .node _ _ _ sd, segs => render mount segs :: allForest mount sd segs

/-- Node paths of a list of sibling subtrees. -/
def allForest (mount : String) : List FSTree → List String → List String
  | [], _ => []
  | c :: cs, segs => allPaths mount c (segs ++ [c.name]) ++ allForest mount cs segs
end

/-- A well-formed directory name: nonempty and free of the path separator
(true of every name a real filesystem can return). -/
def goodName (n : String) : Bool := !(n = "") && !(n.data.contains '/')

mutual
/-- All directory names strictly below this node are well formed. -/
def wfNames : FSTree → Bool
  | .node _ _ _ sd => wfForestNames sd

/-- Name well-formedness of a list of sibling subtrees. -/
def wfForestNames : List FSTree → Bool
  | [] => true
  | c :: cs => goodName c.name && wfNames c && wfForestNames cs
end

/-- The `scan_errors` rows one walk item contributes (none when the directory
is skipped or beyond the depth limit — the loop `continue`s before the file
loop). -/
def itemErrors (cfg : ScanCfg) (sid : Nat) (w : WalkItem) : List ScanError :=
  if emit_cond cfg w.segs then fileErrList sid (render cfg.mount w.segs) w.node.files else []

/-- All `scan_errors` rows a list of walk items contributes, in order. -/
def itemsErrors (cfg : ScanCfg) (sid : Nat) (ws : List WalkItem) : List ScanError :=
  (ws.map (itemErrors cfg sid)).flatten

/-- Bytes one walk item adds to `stats['total_size']`. -/
def itemSize (cfg : ScanCfg) (w : WalkItem) : Nat :=
  if emit_cond cfg w.segs then fileSizeSum w.node.files else 0

/-- Files one walk item adds to `stats['total_files']`. -/
def itemFiles (cfg : ScanCfg) (w : WalkItem) : Nat :=
  if emit_cond cfg w.segs then fileOkCount w.node.files else 0

/-- Directories one walk item adds to `stats['total_dirs']`. -/
def itemDirs (cfg : ScanCfg) (w : WalkItem) : Nat :=
  if emit_cond cfg w.segs then 1 else 0

/-- The node reached from `t` by taking the given child indices, together with
its relative path. -/
def getNode? : FSTree → List Nat → List String → Option (FSTree × List String)
  | t, [], segs => some (t, segs)
  | .node _ _ _ sd, i :: rest, segs =>
      match sd[i]? with
      | some c => getNode? c rest (segs ++ [c.name])
      | none => none

/-- Whether every directory on the child-index path (the target included) is
listable, i.e. whether the walk reaches the target. -/
def listableAlong : FSTree → List Nat → Bool
  | t, [] => t.listable
  | .node _ l _ sd, i :: rest =>
      l && (match sd[i]? with
            | some c => listableAlong c rest
            | none => false)

/-- Replace the `i`-th element of a list by `g` of it. -/
def modifyNth {α : Type} (g : α → α) : List α → Nat → List α
  | [], _ => []
  | c :: cs, 0 => g c :: cs
  | c :: cs, i + 1 => c :: modifyNth g cs i

/-- Insert file `f` at position `pos` of the file list of the node reached by
the child-index path `loc`. -/
def insertFileAt (f : FileEnt) : List Nat → Nat → FSTree → FSTree
  | [], pos, .node n l fs sd => .node n l (fs.take pos ++ f :: fs.drop pos) sd
  | i :: rest, pos, .node n l fs sd => .node n l fs (modifyNth (insertFileAt f rest pos) sd i)

/-- The entry the loop body computes for one emitted walk item, given the
`dir_sizes` dict at that moment. -/
def stepEntry (cfg : ScanCfg) (st : ScanState) (w : WalkItem) : Entry :=
  let root := render cfg.mount w.segs
  addChildren st.dirSizes root (w.node.subdirs.map FSTree.name)
    { path := root, name := entry_name root,
      size := fileSizeSum w.node.files, file_count := fileOkCount w.node.files,
      dir_count := 0, depth := get_depth w.segs,
      parent_path := if w.segs = [] then none else some (render cfg.mount w.segs.dropLast),
      is_dir := 1, error := none }

/-- All entries of the running snapshot the scan has produced so far, flushed
or still pending in `entries_batch`, tagged with the snapshot id. -/
def outE (st : ScanState) : List (Nat × Entry) :=
  st.db.entries ++ st.batch.map (fun e => (st.sid, e))

/-- The keys of the `dir_sizes` association list. -/
def keysOf (l : List (String × Entry)) : List String := l.map Prod.fst

/-- The size an entry list attributes to a path: the `size` of the entry found
there, `0` when no entry carries the path. -/
def childSizeIn (E : List Entry) (p : String) : Nat :=
  match E.find? (fun e => e.path == p) with
  | some c => c.size
  | none => 0

/-- Like `childSizeIn` for `file_count`. -/
def childFilesIn (E : List Entry) (p : String) : Nat :=
  match E.find? (fun e => e.path == p) with
  | some c => c.file_count
  | none => 0

/-- The `dir_count + 1` a child entry contributes, `0` when absent. -/
def childDirsIn (E : List Entry) (p : String) : Nat :=
  match E.find? (fun e => e.path == p) with
  | some c => c.dir_count + 1
  | none => 0

instance {e a : Type} [DecidableEq e] [DecidableEq a] : DecidableEq (Except e a) := fun x y =>
  match x, y with
  | .ok v, .ok w => if h : v = w then isTrue (by rw [h]) else isFalse (by simp [h])
  | .error v, .error w => if h : v = w then isTrue (by rw [h]) else isFalse (by simp [h])
  | .ok _, .error _ => isFalse (by simp)
  | .error _, .ok _ => isFalse (by simp)

/-- Fixture: a small filesystem with one readable file, one unreadable file,
one readable subdirectory and one unlistable subdirectory. -/
def exTree : FSTree :=
  .node "m" true [⟨"f1", .ok 5⟩, ⟨"f2", .err "PermissionError" "denied"⟩]
    [.node "a" true [⟨"g", .ok 3⟩] [], .node "b" false [⟨"h", .ok 99⟩] []]

/-- Fixture: a root with an unlistable child (holding data that would be
visible if it were listable) and a listable sibling. -/
def exT4 : FSTree :=
  .node "m" true []
    [.node "a" false [⟨"f", .ok 11⟩] [], .node "b" true [⟨"g", .ok 7⟩] []]

/-- Fixture: a single directory with one file. -/
def exT7 : FSTree := .node "m" true [⟨"f", .ok 1⟩] []

/-- Fixture: a directory entry row for the growth query examples. -/
def exEntry (p : String) (sz : Nat) : Entry :=
  { path := p, name := "x", size := sz, file_count := 0, dir_count := 0,
    depth := 1, parent_path := some "/", is_dir := 1, error := none }

/-- Fixture: a completed snapshot row. -/
def snapC (i t : Nat) : SnapRow :=
  { id := i, mount_point := "/", started_at := 0, completed_at := some t,
    total_size := 0, total_files := 0, total_dirs := 0, status := "completed" }

/-- Fixture: a database holding exactly one completed snapshot with one
directory entry of positive size. -/
def dbOne : DB := ⟨2, [snapC 1 1], [(1, exEntry "/a" 5)], []⟩

/-- Fixture: two completed snapshots where path `/a` grows from 3 to 4 bytes,
so the exact growth percentage 100/3 does not have two decimal digits. -/
def dbTwo : DB := ⟨3, [snapC 1 1, snapC 2 2], [(1, exEntry "/a" 3), (2, exEntry "/a" 4)], []⟩

/-! Utility lemmas about the loop body and the loop. -/

theorem processFiles_go (sid : Nat) (root : String) (files : List FileEnt) :
    ∀ (s fc er : Nat) (db : DB),
      files.foldl (processFile sid root) ⟨s, fc, er, db⟩ =
        ⟨s + fileSizeSum files, fc + fileOkCount files,
         er + (fileErrList sid root files).length,
         { db with scan_errors := db.scan_errors ++ fileErrList sid root files }⟩ := by
  induction files with
  | nil => intro s fc er db; simp [fileSizeSum, fileOkCount, fileErrList]
  | cons f fs ih =>
    intro s fc er db
    cases h : f.stat with
    | ok sz =>
      simp only [List.foldl_cons, processFile, h, ih, fileSizeSum, fileOkCount,
        fileErrList, List.map_cons, List.sum_cons, List.filter_cons, List.filterMap_cons, h]
      simp [fileSizeSum, fileOkCount, Nat.add_assoc]
      omega
    | err t m =>
      simp only [List.foldl_cons, processFile, h, ih, fileSizeSum, fileOkCount,
        fileErrList, List.map_cons, List.sum_cons, List.filter_cons, List.filterMap_cons, h]
      simp [fileSizeSum, fileOkCount, fileErrList, DB.log_error, Nat.add_assoc]
      omega

theorem processFiles_eq (sid : Nat) (root : String) (files : List FileEnt) (db : DB) :
    processFiles sid root files db =
      ⟨fileSizeSum files, fileOkCount files, (fileErrList sid root files).length,
       { db with scan_errors := db.scan_errors ++ fileErrList sid root files }⟩ := by
  have h := processFiles_go sid root files 0 0 0 db
  simpa [processFiles] using h

theorem scanLoop_eq (cfg : ScanCfg) (cancel : Nat → Bool) (ws : List WalkItem) :
    ∀ (i : Nat) (st : ScanState),
      scanLoop cfg cancel ws i st =
        (scanFold cfg st (takeUntilCancel cancel ws i), loopCancelled cancel ws i) := by
  induction ws with
  | nil => intro i st; simp [scanLoop, scanFold, takeUntilCancel, loopCancelled]
  | cons w ws ih =>
    intro i st
    by_cases h : cancel i = true
    · simp [scanLoop, takeUntilCancel, loopCancelled, h, scanFold]
    · simp only [Bool.not_eq_true] at h
      simp [scanLoop, takeUntilCancel, loopCancelled, h, scanFold, ih]

theorem takeUntilCancel_false (ws : List WalkItem) :
    ∀ i, takeUntilCancel (fun _ => false) ws i = ws := by
  induction ws with
  | nil => intro i; rfl
  | cons w ws ih => intro i; simp [takeUntilCancel, ih]

theorem loopCancelled_false (ws : List WalkItem) :
    ∀ i, loopCancelled (fun _ => false) ws i = false := by
  induction ws with
  | nil => intro i; rfl
  | cons w ws ih => intro i; simp [loopCancelled, ih]

theorem stepDir_sid (cfg : ScanCfg) (st : ScanState) (w : WalkItem) :
    (stepDir cfg st w).sid = st.sid := by
  simp only [stepDir, processFiles_eq]
  split_ifs <;> rfl

theorem stepDir_snapshots (cfg : ScanCfg) (st : ScanState) (w : WalkItem) :
    (stepDir cfg st w).db.snapshots = st.db.snapshots := by
  simp only [stepDir, processFiles_eq]
  split_ifs <;> simp [DB.insert_entries_batch]

theorem stepDir_nextId (cfg : ScanCfg) (st : ScanState) (w : WalkItem) :
    (stepDir cfg st w).db.nextId = st.db.nextId := by
  simp only [stepDir, processFiles_eq]
  split_ifs <;> simp [DB.insert_entries_batch]

theorem scanFold_sid (cfg : ScanCfg) (ws : List WalkItem) :
    ∀ st, (scanFold cfg st ws).sid = st.sid := by
  induction ws with
  | nil => intro st; rfl
  | cons w ws ih => intro st; simp [scanFold] at ih ⊢; rw [ih, stepDir_sid]

theorem scanFold_snapshots (cfg : ScanCfg) (ws : List WalkItem) :
    ∀ st, (scanFold cfg st ws).db.snapshots = st.db.snapshots := by
  induction ws with
  | nil => intro st; rfl
  | cons w ws ih => intro st; simp [scanFold] at ih ⊢; rw [ih, stepDir_snapshots]

theorem scanFold_nextId (cfg : ScanCfg) (ws : List WalkItem) :
    ∀ st, (scanFold cfg st ws).db.nextId = st.db.nextId := by
  induction ws with
  | nil => intro st; rfl
  | cons w ws ih => intro st; simp [scanFold] at ih ⊢; rw [ih, stepDir_nextId]

theorem find_snapshot_update (upd : SnapRow → SnapRow)
    (hid : ∀ r, (upd r).id = r.id) (sid : Nat) (row : SnapRow) (hrow : row.id = sid) :
    ∀ l : List SnapRow, (∀ r ∈ l, r.id ≠ sid) →
      ((l ++ [row]).map upd).find? (fun r => r.id == sid) = some (upd row) := by
  intro l
  induction l with
  | nil =>
    intro _
    simp [List.find?, hid, hrow]
  | cons r rs ih =>
    intro h
    have hr : r.id ≠ sid := h r (List.mem_cons_self r rs)
    simp only [List.cons_append, List.map_cons, List.find?]
    rw [show ((upd r).id == sid) = false by simp [hid, hr]]
    exact ih (fun x hx => h x (List.mem_cons_of_mem r hx))

/-! Claim C8: the path-exclusion predicate. -/

theorem should_skip_true_iff (skips : List String) (p : String) :
    should_skip skips p = true ↔
      ∃ s ∈ skips, p = s ∨ strStartsWith p (s ++ "/") = true := by
  unfold should_skip
  split
  · rename_i h
    simp only [true_iff]
    exact ⟨p, h, Or.inl rfl⟩
  · rename_i h
    simp only [List.any_eq_true]
    constructor
    · rintro ⟨s, hs, hpre⟩; exact ⟨s, hs, Or.inr hpre⟩
    · rintro ⟨s, hs, heq | hpre⟩
      · exact absurd (heq ▸ hs) h
      · exact ⟨s, hs, hpre⟩

/-- C8: for every candidate path, `_should_skip` returns true iff the path
exactly equals some skip path or starts with a skip path followed by the path
separator, where the skip set is the user-configured list unioned with the
fixed built-in set of virtual-filesystem roots; in particular `/var/tmpX` is
not excluded by the skip path `/var/tmp`. -/
theorem C8_should_skip_spec (skip_paths : List String) (p : String) :
    (should_skip (skipSet skip_paths) p = true ↔
      ∃ s, (s ∈ skip_paths ∨ s ∈ default_skip) ∧
        (p = s ∨ strStartsWith p (s ++ "/") = true)) ∧
    should_skip (skipSet []) "/var/tmpX" = false := by
  refine ⟨?_, by decide⟩
  rw [should_skip_true_iff]
  constructor
  · rintro ⟨s, hs, hp⟩
    exact ⟨s, by simpa [skipSet] using hs, hp⟩
  · rintro ⟨s, hs, hp⟩
    exact ⟨s, by simpa [skipSet] using hs, hp⟩

/-! Claim C6: the concurrent-scan guard (a dead guard in the code). -/

/-- C6 (refuting the claim as stated): the scheduler's `_scan_task` is
assigned only in `__init__`, where it is set to `None`, so the
`trigger_scan` guard and `is_scan_running` never fire; `run_scan` builds a
fresh `DiskScanner` (with `_running = False`) for every request, so its guard
passes as well, and a second request issued while a scan is running proceeds
to `create_snapshot`, leaving two `running` snapshot rows. -/
theorem C6_no_rejection_two_running :
    trigger_scan_rejects schedulerInit = false ∧
    is_scan_running schedulerInit = false ∧
    scan_guard_rejects scannerInit = false ∧
    (((DB.create_snapshot (DB.create_snapshot emptyDB "/data" 0).2 "/data" 1).2).snapshots.filter
        (fun r => r.status == "running")).length = 2 := by
  decide

/-! Claim C5: fatal failures. -/

/-- C5 (counterexample to the claim as stated): an invalid mount point raises
`ValueError` before any snapshot row exists — the caller sees the exception
but no failed-snapshot record is persisted, and the database is untouched. -/
theorem C5_counterexample :
    scan [] 0 "/gone" none (fun _ => false) emptyDB 0 =
      (.error "Mount point does not exist: /gone", emptyDB) ∧
    emptyDB.snapshots = [] := by
  decide

/-- C5 (amended): any exception escaping the walk loop after the snapshot was
created causes `fail_snapshot`: the snapshot row is marked `failed` with the
completion time set, one `scan_errors` row with the fixed `FATAL` type at the
fixed path `"/"` carrying the exception text is appended, and the exception is
re-raised to the caller.  (An invalid mount point instead raises before any
snapshot exists, and the `FATAL` row's path is always `"/"`, not the scan
root.) -/
theorem C5_fatal_bookkeeping (skip_paths : List String) (max_depth : Nat)
    (mount_point : String) (t : FSTree) (k : Nat) (msg : String) (db : DB) (now : Nat)
    (hwf : db.wf) :
    (scanExc skip_paths max_depth mount_point t k msg db now).1 = .error msg ∧
    (∃ r, ((scanExc skip_paths max_depth mount_point t k msg db now).2).snapshots.find?
            (fun r => r.id == db.nextId) = some r ∧
          r.status = "failed" ∧ r.mount_point = mount_point ∧ r.completed_at = some now) ∧
    ((scanExc skip_paths max_depth mount_point t k msg db now).2).scan_errors.getLast? =
      some ⟨db.nextId, "/", "FATAL", msg⟩ := by
  obtain ⟨hs, -, -⟩ := hwf
  have hrow : ∀ r ∈ db.snapshots, r.id ≠ db.nextId := fun r hr => Nat.ne_of_lt (hs r hr)
  simp only [scanExc, scanLoop_eq, DB.create_snapshot]
  refine ⟨trivial, ?_, ?_⟩
  · simp only [DB.fail_snapshot, scanFold_snapshots]
    refine ⟨_, find_snapshot_update _ (fun r => by split <;> rfl) db.nextId _ rfl
      db.snapshots hrow, ?_, ?_, ?_⟩ <;> simp
  · simp [DB.fail_snapshot]

/-! Sorting lemmas for the growth query. -/

theorem mem_insertDesc {α : Type} (key : α → Int) (x : α) :
    ∀ (l : List α) (y : α), y ∈ insertDesc key x l ↔ y = x ∨ y ∈ l := by
  intro l
  induction l with
  | nil => intro y; simp [insertDesc]
  | cons z zs ih =>
    intro y
    simp only [insertDesc]
    split_ifs
    · simp [List.mem_cons]
    · simp only [List.mem_cons, ih]
      tauto

theorem pairwise_insertDesc {α : Type} (key : α → Int) (x : α) :
    ∀ l : List α, l.Pairwise (fun a b => key b ≤ key a) →
      (insertDesc key x l).Pairwise (fun a b => key b ≤ key a) := by
  intro l
  induction l with
  | nil => intro _; simp [insertDesc]
  | cons z zs ih =>
    intro h
    rcases List.pairwise_cons.mp h with ⟨hz, hzs⟩
    simp only [insertDesc]
    split_ifs with hlt
    · refine List.pairwise_cons.mpr ⟨?_, h⟩
      intro b hb
      rcases List.mem_cons.mp hb with rfl | hb
      · exact Int.le_of_lt hlt
      · exact le_trans (hz b hb) (Int.le_of_lt hlt)
    · refine List.pairwise_cons.mpr ⟨?_, ih hzs⟩
      intro b hb
      rcases (mem_insertDesc key x zs b).mp hb with rfl | hb
      · omega
      · exact hz b hb

theorem mem_sortDesc {α : Type} (key : α → Int) (l : List α) (y : α) :
    y ∈ sortDesc key l ↔ y ∈ l := by
  induction l with
  | nil => simp [sortDesc]
  | cons z zs ih =>
    show y ∈ insertDesc key z (sortDesc key zs) ↔ _
    rw [mem_insertDesc key z (sortDesc key zs) y]
    simp [ih]

theorem pairwise_sortDesc {α : Type} (key : α → Int) (l : List α) :
    (sortDesc key l).Pairwise (fun a b => key b ≤ key a) := by
  induction l with
  | nil => simp [sortDesc]
  | cons z zs ih => exact pairwise_insertDesc key z _ ih

/-! Claim C3: growth query with fewer than two completed snapshots. -/

/-- C3 (counterexample to the claim as stated): a database with exactly one
completed snapshot — fewer than two — yields a non-empty growth list: the only
snapshot's positive-size directory is reported with its whole size as growth
at 100%. -/
theorem C3_counterexample :
    (dbOne.snapshots.filter (fun r => r.status == "completed")).length = 1 ∧
    get_top_growth dbOne 10 =
      [{ path := "/a", name := "x", current_size := 5, previous_size := none,
         growth := 5, growth_percent := 100 }] ∧
    get_top_growth dbOne 10 ≠ [] := by
  refine ⟨by decide, ?_, ?_⟩ <;>
    simp [get_top_growth, dbOne, completed_snapshots, sortDesc, insertDesc, exEntry,
      snapC, growthRowOf]

/-- C3 (amended): with zero completed snapshots the growth query returns the
empty list; with exactly one completed snapshot it does not raise either, but
returns that snapshot's directory entries of strictly positive size as brand
new growth (previous size NULL, growth = full size, 100%), ordered descending
and truncated to the limit. -/
theorem C3_lt_two_snapshots (db : DB) (limit : Nat) :
    (db.snapshots.filter (fun r => r.status == "completed") = [] →
      get_top_growth db limit = []) ∧
    (∀ s, db.snapshots.filter (fun r => r.status == "completed") = [s] →
      get_top_growth db limit =
        (sortDesc GrowthRow.growth
          (((db.entries.filter (fun p => p.1 == s.id && p.2.is_dir == 1)).map
              (growthRowOf db none)).filter (fun r => 0 < r.growth))).take limit) := by
  constructor
  · intro h
    unfold get_top_growth completed_snapshots
    rw [h]
    rfl
  · intro s h
    unfold get_top_growth completed_snapshots
    rw [h]
    rfl

/-- Witness for `C3_lt_two_snapshots` at concrete databases with zero and one
completed snapshots. -/
theorem C3_lt_two_snapshots_witness :
    get_top_growth emptyDB 10 = [] ∧
    get_top_growth dbOne 10 =
      (sortDesc GrowthRow.growth
        (((dbOne.entries.filter (fun p => p.1 == (snapC 1 1).id && p.2.is_dir == 1)).map
            (growthRowOf dbOne none)).filter (fun r => 0 < r.growth))).take 10 :=
  ⟨(C3_lt_two_snapshots emptyDB 10).1 (by decide),
   (C3_lt_two_snapshots dbOne 10).2 (snapC 1 1) (by decide)⟩

/-! Claim C2: the growth computation. -/

/-- C2 (counterexample to the claim as stated): with previous size 3 and
current size 4 the stored growth percentage is the rounded `33.33`, not the
exact `(4 - 3) x 100 / 3 = 100/3` the claim prescribes. -/
theorem C2_counterexample :
    (get_top_growth dbTwo 10).map GrowthRow.growth_percent = [3333/100] ∧
    ((3333 : ℚ)/100) ≠ ((4 : ℚ) - 3) * 100 / 3 := by
  constructor
  · simp [get_top_growth, dbTwo, completed_snapshots, sortDesc, insertDesc, exEntry,
      snapC, growthRowOf, round2]
    norm_num [Int.floor_eq_iff]
  · norm_num

/-- C2 (amended): every returned row has strictly positive growth equal to the
current size minus the previous size at the same path (0 when absent); the
growth percentage is the fixed 100 when no previous entry exists or its size
is 0, and otherwise `growth x 100 / previous size` rounded to two decimals
(`ROUND(..., 2)`); rows are ordered descending by growth and truncated to the
limit; and every row originates from a directory entry of the latest completed
snapshot. -/
theorem growthRowOf_spec (db : DB) (prev? : Option SnapRow) (p : Nat × Entry) :
    (growthRowOf db prev? p).current_size = p.2.size ∧
    (growthRowOf db prev? p).growth =
      ((growthRowOf db prev? p).current_size : Int) -
        ((growthRowOf db prev? p).previous_size.getD 0 : Nat) ∧
    ((growthRowOf db prev? p).previous_size = none →
      (growthRowOf db prev? p).growth_percent = 100) ∧
    (∀ ps, (growthRowOf db prev? p).previous_size = some ps →
      (0 < ps → (growthRowOf db prev? p).growth_percent =
        round2 ((((growthRowOf db prev? p).current_size : ℚ) - ps) * 100 / ps)) ∧
      (ps = 0 → (growthRowOf db prev? p).growth_percent = 100)) := by
  cases prev? with
  | none => simp [growthRowOf]
  | some prev =>
    cases hf : db.entries.find? (fun q => q.2.path == p.2.path && q.1 == prev.id) with
    | none => simp [growthRowOf, hf]
    | some q =>
      refine ⟨by simp [growthRowOf, hf], by simp [growthRowOf, hf], ?_, ?_⟩
      · simp [growthRowOf, hf]
      · intro ps hps
        have hq : q.2.size = ps := by
          simpa [growthRowOf, hf] using hps
        subst hq
        constructor
        · intro h0
          simp [growthRowOf, hf, h0]
        · intro h0
          simp [growthRowOf, hf, h0]

/-- C2 (amended): every returned row has strictly positive growth equal to the
current size minus the previous size at the same path (0 when absent); the
growth percentage is the fixed 100 when no previous entry exists or its size
is 0, and otherwise `growth x 100 / previous size` rounded to two decimals
(`ROUND(..., 2)`); rows are ordered descending by growth and truncated to the
limit; and every row originates from a directory entry of the latest completed
snapshot. -/
theorem C2_growth_query_spec (db : DB) (limit : Nat) :
    (get_top_growth db limit).length ≤ limit ∧
    (get_top_growth db limit).Pairwise (fun a b => b.growth ≤ a.growth) ∧
    ∀ r ∈ get_top_growth db limit,
      0 < r.growth ∧
      r.growth = (r.current_size : Int) - (r.previous_size.getD 0 : Nat) ∧
      (r.previous_size = none → r.growth_percent = 100) ∧
      (∀ ps, r.previous_size = some ps →
        (0 < ps → r.growth_percent = round2 (((r.current_size : ℚ) - ps) * 100 / ps)) ∧
        (ps = 0 → r.growth_percent = 100)) ∧
      ∃ latest p, ((completed_snapshots db).take 2).head? = some latest ∧
        p ∈ db.entries ∧ p.1 = latest.id ∧ p.2.is_dir = 1 ∧
        r = growthRowOf db ((completed_snapshots db).take 2)[1]? p := by
  simp only [get_top_growth]
  cases hh : ((completed_snapshots db).take 2).head? with
  | none => simp
  | some latest =>
    refine ⟨List.length_take_le _ _, ?_, ?_⟩
    · exact ((pairwise_sortDesc GrowthRow.growth _).sublist (List.take_sublist _ _)).imp
        (fun h => h)
    · intro r hr
      have hr1 : r ∈ sortDesc GrowthRow.growth
          (((db.entries.filter (fun p => p.1 == latest.id && p.2.is_dir == 1)).map
              (growthRowOf db ((completed_snapshots db).take 2)[1]?)).filter
            (fun r => 0 < r.growth)) := List.take_subset _ _ hr
      rw [mem_sortDesc] at hr1
      obtain ⟨hmem, hpos⟩ := List.mem_filter.mp hr1
      obtain ⟨p, hp, hrp⟩ := List.mem_map.mp hmem
      obtain ⟨hpe, hcond⟩ := List.mem_filter.mp hp
      have hcond' : p.1 = latest.id ∧ p.2.is_dir = 1 := by
        simpa using hcond
      obtain ⟨-, hgr, hnone, hsome⟩ :=
        growthRowOf_spec db ((completed_snapshots db).take 2)[1]? p
      subst hrp
      exact ⟨of_decide_eq_true hpos, hgr, hnone, hsome,
        latest, p, rfl, hpe, hcond'.1, hcond'.2, rfl⟩

/-- Witness for `C2_growth_query_spec`: the ordering property at a concrete
database. -/
theorem C2_growth_query_spec_witness :
    (get_top_growth dbTwo 10).Pairwise (fun a b => b.growth ≤ a.growth) :=
  (C2_growth_query_spec dbTwo 10).2.1

/-! Structural lemmas about the walk and the reference aggregation. -/

theorem render_append (mount : String) (segs : List String) (n : String) :
    render mount (segs ++ [n]) = pjoin (render mount segs) n := by
  simp [render, List.foldl_append]

theorem allPaths_node (mount : String) (n : String) (l : Bool) (fs : List FileEnt)
    (sd : List FSTree) (segs : List String) :
    allPaths mount (.node n l fs sd) segs = render mount segs :: allForest mount sd segs := by
  simp [allPaths]

theorem allForest_cons (mount : String) (c : FSTree) (cs : List FSTree) (segs : List String) :
    allForest mount (c :: cs) segs =
      allPaths mount c (segs ++ [c.name]) ++ allForest mount cs segs := by
  simp [allForest]

theorem render_mem_allPaths (mount : String) (t : FSTree) (segs : List String) :
    render mount segs ∈ allPaths mount t segs := by
  cases t with
  | node n l fs sd => rw [allPaths_node]; exact List.mem_cons_self _ _

theorem allPaths_sub_allForest (mount : String) (segs : List String) :
    ∀ (sd : List FSTree), ∀ c ∈ sd,
      ∀ q ∈ allPaths mount c (segs ++ [c.name]), q ∈ allForest mount sd segs := by
  intro sd
  induction sd with
  | nil => intro c hc; cases hc
  | cons d ds ih =>
    intro c hc q hq
    rw [allForest_cons]
    rcases List.mem_cons.mp hc with rfl | hc
    · exact List.mem_append_left _ hq
    · exact List.mem_append_right _ (ih c hc q hq)

mutual
theorem walk_listable : ∀ (t : FSTree) (segs : List String),
    ∀ w ∈ t.walk segs, w.node.listable = true
  | .node _ false _ _, _ => by intro w hw; cases hw
  | .node n true fs sd, segs => by
    intro w hw
    rcases List.mem_append.mp hw with hw | hw
    · exact walkForest_listable sd segs w hw
    · rcases List.mem_singleton.mp hw with rfl
      rfl

theorem walkForest_listable : ∀ (sd : List FSTree) (segs : List String),
    ∀ w ∈ walkForest sd segs, w.node.listable = true
  | [], _ => by intro w hw; cases hw
  | c :: cs, segs => by
    intro w hw
    rcases List.mem_append.mp hw with hw | hw
    · exact walk_listable c (segs ++ [c.name]) w hw
    · exact walkForest_listable cs segs w hw
end

mutual
theorem emit_eq_walk (cfg : ScanCfg) : ∀ (t : FSTree) (segs : List String),
    emitEntries cfg t segs = (t.walk segs).filterMap (fun w =>
      if emit_cond cfg w.segs then
        some (render cfg.mount w.segs, agg cfg w.node w.segs)
      else none)
  | .node n false fs sd, segs => by simp [emitEntries, FSTree.walk]
  | .node n true fs sd, segs => by
    rw [emitEntries, FSTree.walk, List.filterMap_append, emitForest_eq_walk cfg sd segs]
    congr 1
    simp only [List.filterMap]
    split <;> rfl

theorem emitForest_eq_walk (cfg : ScanCfg) : ∀ (sd : List FSTree) (segs : List String),
    emitForest cfg sd segs = (walkForest sd segs).filterMap (fun w =>
      if emit_cond cfg w.segs then
        some (render cfg.mount w.segs, agg cfg w.node w.segs)
      else none)
  | [], segs => rfl
  | c :: cs, segs => by
    rw [emitForest, walkForest, List.filterMap_append, emit_eq_walk cfg c (segs ++ [c.name]),
      emitForest_eq_walk cfg cs segs]
end

mutual
theorem emitKeys_tree (cfg : ScanCfg) : ∀ (t : FSTree) (segs : List String),
    ∀ p ∈ emitEntries cfg t segs, p.1 ∈ allPaths cfg.mount t segs
  | .node n false fs sd, segs => by intro p hp; cases hp
  | .node n true fs sd, segs => by
    intro p hp
    rw [emitEntries] at hp
    rw [allPaths_node]
    rcases List.mem_append.mp hp with hp | hp
    · exact List.mem_cons_of_mem _ (emitKeys_forest cfg sd segs p hp)
    · split at hp
      · rcases List.mem_singleton.mp hp with rfl
        exact List.mem_cons_self _ _
      · cases hp

theorem emitKeys_forest (cfg : ScanCfg) : ∀ (sd : List FSTree) (segs : List String),
    ∀ p ∈ emitForest cfg sd segs, p.1 ∈ allForest cfg.mount sd segs
  | [], _ => by intro p hp; cases hp
  | c :: cs, segs => by
    intro p hp
    rw [emitForest] at hp
    rw [allForest_cons]
    rcases List.mem_append.mp hp with hp | hp
    · exact List.mem_append_left _ (emitKeys_tree cfg c (segs ++ [c.name]) p hp)
    · exact List.mem_append_right _ (emitKeys_forest cfg cs segs p hp)
end

mutual
theorem emitUnique_tree (cfg : ScanCfg) : ∀ (t : FSTree) (segs : List String),
    (allPaths cfg.mount t segs).Nodup →
    ∀ p ∈ emitEntries cfg t segs, ∀ p' ∈ emitEntries cfg t segs, p.1 = p'.1 → p = p'
  | .node n false fs sd, segs => by intro _ p hp; cases hp
  | .node n true fs sd, segs => by
    intro hnd p hp p' hp' hkey
    rw [allPaths_node, List.nodup_cons] at hnd
    rw [emitEntries] at hp hp'
    by_cases he : emit_cond cfg segs = true
    · rw [if_pos he] at hp hp'
      rcases List.mem_append.mp hp with hp | hp <;> rcases List.mem_append.mp hp' with hp' | hp'
      · exact emitUnique_forest cfg sd segs hnd.2 p hp p' hp' hkey
      · rcases List.mem_singleton.mp hp' with rfl
        exfalso
        have hkey' : p.1 = render cfg.mount segs := hkey
        exact hnd.1 (hkey' ▸ emitKeys_forest cfg sd segs p hp)
      · rcases List.mem_singleton.mp hp with rfl
        exfalso
        have hkey' : p'.1 = render cfg.mount segs := hkey.symm
        exact hnd.1 (hkey' ▸ emitKeys_forest cfg sd segs p' hp')
      · rcases List.mem_singleton.mp hp with rfl
        rcases List.mem_singleton.mp hp' with rfl
        rfl
    · rw [if_neg he, List.append_nil] at hp hp'
      exact emitUnique_forest cfg sd segs hnd.2 p hp p' hp' hkey

theorem emitUnique_forest (cfg : ScanCfg) : ∀ (sd : List FSTree) (segs : List String),
    (allForest cfg.mount sd segs).Nodup →
    ∀ p ∈ emitForest cfg sd segs, ∀ p' ∈ emitForest cfg sd segs, p.1 = p'.1 → p = p'
  | [], _ => by intro _ p hp; cases hp
  | c :: cs, segs => by
    intro hnd p hp p' hp' hkey
    rw [allForest_cons, List.nodup_append] at hnd
    rw [emitForest] at hp hp'
    rcases List.mem_append.mp hp with hp | hp <;> rcases List.mem_append.mp hp' with hp' | hp'
    · exact emitUnique_tree cfg c (segs ++ [c.name]) hnd.1 p hp p' hp' hkey
    · exact absurd (emitKeys_forest cfg cs segs p' hp')
        (hkey ▸ hnd.2.2 (emitKeys_tree cfg c (segs ++ [c.name]) p hp))
    · exact absurd (emitKeys_forest cfg cs segs p hp)
        ((hkey ▸ hnd.2.2 (emitKeys_tree cfg c (segs ++ [c.name]) p' hp')))
    · exact emitUnique_forest cfg cs segs hnd.2.1 p hp p' hp' hkey
end

theorem emit_own_mem (cfg : ScanCfg) (t : FSTree) (segs : List String)
    (hl : t.listable = true) (he : emit_cond cfg segs = true) :
    (render cfg.mount segs, agg cfg t segs) ∈ emitEntries cfg t segs := by
  cases t with
  | node n l fs sd =>
    cases l with
    | false => cases hl
    | true =>
      rw [emitEntries, he]
      exact List.mem_append_right _ (List.mem_singleton.mpr rfl)

/-- An unemitted subtree root's path is carried by none of its emitted pairs. -/
theorem emit_root_absent (cfg : ScanCfg) (t : FSTree) (segs : List String)
    (hnd : (allPaths cfg.mount t segs).Nodup)
    (h : ¬(t.listable = true ∧ emit_cond cfg segs = true)) :
    ∀ p ∈ emitEntries cfg t segs, p.1 ≠ render cfg.mount segs := by
  intro p hp
  cases t with
  | node n l fs sd =>
    cases l with
    | false => cases hp
    | true =>
      rw [allPaths_node, List.nodup_cons] at hnd
      rw [emitEntries] at hp
      have he : emit_cond cfg segs = false := by
        cases hcc : emit_cond cfg segs
        · rfl
        · exact absurd ⟨rfl, hcc⟩ h
      rw [he] at hp
      simp only [if_neg Bool.false_ne_true, List.append_nil] at hp
      intro hk
      exact hnd.1 (hk ▸ emitKeys_forest cfg sd segs p hp)

theorem lookup_eq_some_of_unique (k : String) (v : Entry) :
    ∀ l : List (String × Entry), (k, v) ∈ l → (∀ p ∈ l, p.1 = k → p.2 = v) →
      List.lookup k l = some v := by
  intro l
  induction l with
  | nil => intro h; cases h
  | cons p ps ih =>
    intro hmem huniq
    rcases p with ⟨k', v'⟩
    by_cases hk : k = k'
    · subst hk
      have hv : v' = v := huniq (k, v') (List.mem_cons_self _ _) rfl
      simp [List.lookup, hv]
    · have hkk : (k == k') = false := by simpa using hk
      simp only [List.lookup, hkk]
      rcases List.mem_cons.mp hmem with heq | hmem'
      · exact absurd (congrArg Prod.fst heq) hk
      · exact ih hmem' (fun p hp => huniq p (List.mem_cons_of_mem _ hp))

theorem lookup_eq_none_of_absent (k : String) :
    ∀ l : List (String × Entry), (∀ p ∈ l, p.1 ≠ k) → List.lookup k l = none := by
  intro l
  induction l with
  | nil => intro _; rfl
  | cons p ps ih =>
    intro habs
    rcases p with ⟨k', v'⟩
    have hk : k' ≠ k := habs (k', v') (List.mem_cons_self _ _)
    have hkk : (k == k') = false := by simpa using (Ne.symm hk)
    simp only [List.lookup, hkk]
    exact ih (fun p hp => habs p (List.mem_cons_of_mem _ hp))

theorem walk_unlistable (t : FSTree) (segs : List String) (h : t.listable = false) :
    t.walk segs = [] := by
  cases t with
  | node n l fs sd => cases l with
    | false => rfl
    | true => cases h

theorem emit_unlistable (cfg : ScanCfg) (t : FSTree) (segs : List String)
    (h : t.listable = false) : emitEntries cfg t segs = [] := by
  cases t with
  | node n l fs sd => cases l with
    | false => rfl
    | true => cases h

theorem emit_cond_false_cases (cfg : ScanCfg) (segs : List String)
    (h : emit_cond cfg segs = false) :
    should_skip cfg.skips (render cfg.mount segs) = true ∨
      (0 < cfg.max_depth ∧ cfg.max_depth < get_depth segs) := by
  by_cases hs : should_skip cfg.skips (render cfg.mount segs) = true
  · exact Or.inl hs
  · right
    simp only [emit_cond, Bool.and_eq_false_iff, Bool.not_eq_false', Bool.not_eq_false] at h
    rcases h with h | h
    · exact absurd h hs
    · simpa using h

theorem emit_cond_true_parts (cfg : ScanCfg) (segs : List String)
    (h : emit_cond cfg segs = true) :
    should_skip cfg.skips (render cfg.mount segs) = false ∧
      ¬(0 < cfg.max_depth ∧ cfg.max_depth < get_depth segs) := by
  simp only [emit_cond, Bool.and_eq_true, Bool.not_eq_true', Bool.not_eq_eq_eq_not,
    Bool.not_true, Bool.and_eq_false_iff] at h
  refine ⟨h.1, ?_⟩
  rintro ⟨h1, h2⟩
  rcases h.2 with h' | h' <;> simp_all

theorem stepDir_not_emit (cfg : ScanCfg) (st : ScanState) (w : WalkItem)
    (h : emit_cond cfg w.segs = false) : stepDir cfg st w = st := by
  rcases emit_cond_false_cases cfg w.segs h with hs | hd
  · simp only [stepDir]
    rw [if_pos hs]
  · simp only [stepDir]
    by_cases hs : should_skip cfg.skips (render cfg.mount w.segs) = true
    · rw [if_pos hs]
    · rw [if_neg hs, if_pos hd]

theorem stepDir_emit_dirSizes (cfg : ScanCfg) (st : ScanState) (w : WalkItem)
    (he : emit_cond cfg w.segs = true) :
    (stepDir cfg st w).dirSizes =
      (render cfg.mount w.segs, stepEntry cfg st w) :: st.dirSizes := by
  obtain ⟨hs, hd⟩ := emit_cond_true_parts cfg w.segs he
  simp only [stepDir, processFiles_eq, stepEntry]
  rw [if_neg (by simp [hs]), if_neg hd]
  split_ifs <;> simp

theorem stepDir_emit_outE (cfg : ScanCfg) (st : ScanState) (w : WalkItem)
    (he : emit_cond cfg w.segs = true) :
    outE (stepDir cfg st w) = outE st ++ [(st.sid, stepEntry cfg st w)] := by
  obtain ⟨hs, hd⟩ := emit_cond_true_parts cfg w.segs he
  simp only [stepDir, processFiles_eq, stepEntry]
  rw [if_neg (by simp [hs]), if_neg hd]
  split_ifs <;> simp [outE, DB.insert_entries_batch]

theorem stepDir_emit_errors (cfg : ScanCfg) (st : ScanState) (w : WalkItem)
    (he : emit_cond cfg w.segs = true) :
    (stepDir cfg st w).db.scan_errors =
      st.db.scan_errors ++ fileErrList st.sid (render cfg.mount w.segs) w.node.files := by
  obtain ⟨hs, hd⟩ := emit_cond_true_parts cfg w.segs he
  simp only [stepDir, processFiles_eq]
  rw [if_neg (by simp [hs]), if_neg hd]
  split_ifs <;> simp [DB.insert_entries_batch]

theorem stepDir_emit_stats (cfg : ScanCfg) (st : ScanState) (w : WalkItem)
    (he : emit_cond cfg w.segs = true) :
    (stepDir cfg st w).stats =
      ⟨st.stats.total_size + fileSizeSum w.node.files,
       st.stats.total_files + fileOkCount w.node.files,
       st.stats.total_dirs + 1,
       st.stats.errors + (fileErrList st.sid (render cfg.mount w.segs) w.node.files).length⟩ := by
  obtain ⟨hs, hd⟩ := emit_cond_true_parts cfg w.segs he
  simp only [stepDir, processFiles_eq]
  rw [if_neg (by simp [hs]), if_neg hd]
  split_ifs <;> rfl

theorem scanFold_errors (cfg : ScanCfg) (ws : List WalkItem) :
    ∀ st, (scanFold cfg st ws).db.scan_errors =
      st.db.scan_errors ++ itemsErrors cfg st.sid ws := by
  induction ws with
  | nil => intro st; simp [scanFold, itemsErrors]
  | cons w ws ih =>
    intro st
    have : scanFold cfg st (w :: ws) = scanFold cfg (stepDir cfg st w) ws := rfl
    rw [this, ih, stepDir_sid]
    cases he : emit_cond cfg w.segs with
    | false =>
      rw [stepDir_not_emit cfg st w he]
      simp [itemsErrors, itemErrors, he]
    | true =>
      rw [stepDir_emit_errors cfg st w he]
      simp [itemsErrors, itemErrors, he]

theorem scanFold_stats (cfg : ScanCfg) (ws : List WalkItem) :
    ∀ st, (scanFold cfg st ws).stats =
      ⟨st.stats.total_size + (ws.map (itemSize cfg)).sum,
       st.stats.total_files + (ws.map (itemFiles cfg)).sum,
       st.stats.total_dirs + (ws.map (itemDirs cfg)).sum,
       st.stats.errors + (itemsErrors cfg st.sid ws).length⟩ := by
  induction ws with
  | nil => intro st; simp [scanFold, itemsErrors]
  | cons w ws ih =>
    intro st
    have hstep : scanFold cfg st (w :: ws) = scanFold cfg (stepDir cfg st w) ws := rfl
    rw [hstep, ih, stepDir_sid]
    cases he : emit_cond cfg w.segs with
    | false =>
      rw [stepDir_not_emit cfg st w he]
      simp [itemsErrors, itemErrors, itemSize, itemFiles, itemDirs, he]
    | true =>
      rw [stepDir_emit_stats cfg st w he]
      simp only [itemsErrors, itemErrors, itemSize, itemFiles, itemDirs, he, if_pos,
        List.map_cons, List.sum_cons, List.flatten_cons, List.length_append, Stats.mk.injEq,
        ite_true]
      omega

theorem scanFold_out (cfg : ScanCfg) (ws : List WalkItem) :
    ∀ st, ∃ X : List (String × Entry),
      (scanFold cfg st ws).dirSizes = X ++ st.dirSizes ∧
      outE (scanFold cfg st ws) = outE st ++ X.reverse.map (fun pe => (st.sid, pe.2)) := by
  induction ws with
  | nil => intro st; exact ⟨[], by simp [scanFold]⟩
  | cons w ws ih =>
    intro st
    have hstep : scanFold cfg st (w :: ws) = scanFold cfg (stepDir cfg st w) ws := rfl
    cases he : emit_cond cfg w.segs with
    | false =>
      obtain ⟨X, h1, h2⟩ := ih st
      refine ⟨X, ?_, ?_⟩ <;> rw [hstep, stepDir_not_emit cfg st w he]
      · exact h1
      · exact h2
    | true =>
      obtain ⟨X, h1, h2⟩ := ih (stepDir cfg st w)
      refine ⟨X ++ [(render cfg.mount w.segs, stepEntry cfg st w)], ?_, ?_⟩
      · rw [hstep, h1, stepDir_emit_dirSizes cfg st w he]
        simp
      · rw [hstep, h2, stepDir_emit_outE cfg st w he, stepDir_sid]
        simp

theorem lookup_append_cases (k : String) :
    ∀ l1 l2 : List (String × Entry),
      List.lookup k (l1 ++ l2) =
        match List.lookup k l1 with
        | some v => some v
        | none => List.lookup k l2 := by
  intro l1 l2
  induction l1 with
  | nil => rfl
  | cons p ps ih =>
    rcases p with ⟨k', v'⟩
    cases hk : (k == k') with
    | true => simp [List.lookup, hk]
    | false => simp [List.lookup, hk, ih]

theorem keysOf_append (l1 l2 : List (String × Entry)) :
    keysOf (l1 ++ l2) = keysOf l1 ++ keysOf l2 := by
  simp [keysOf]

theorem mem_keysOf (l : List (String × Entry)) (k : String) :
    k ∈ keysOf l ↔ ∃ p ∈ l, p.1 = k := by
  simp [keysOf, List.mem_map]

theorem lookup_child (cfg : ScanCfg) (segs : List String) :
    ∀ (sd : List FSTree) (D0 : List (String × Entry)),
      (allForest cfg.mount sd segs).Nodup →
      (∀ k ∈ keysOf D0, k ∉ allForest cfg.mount sd segs) →
      ∀ c ∈ sd,
        List.lookup (render cfg.mount (segs ++ [c.name]))
            ((emitForest cfg sd segs).reverse ++ D0) =
          (if c.listable && emit_cond cfg (segs ++ [c.name]) then
            some (agg cfg c (segs ++ [c.name])) else none) := by
  intro sd
  induction sd with
  | nil => intro D0 _ _ c hc; cases hc
  | cons d ds ih =>
    intro D0 hnd hdisj c hc
    rw [allForest_cons, List.nodup_append] at hnd
    rw [emitForest, List.reverse_append, List.append_assoc]
    rcases List.mem_cons.mp hc with rfl | hc
    · have hq : render cfg.mount (segs ++ [c.name]) ∈
          allPaths cfg.mount c (segs ++ [c.name]) := render_mem_allPaths _ _ _
      have h1 : List.lookup (render cfg.mount (segs ++ [c.name]))
          (emitForest cfg ds segs).reverse = none := by
        apply lookup_eq_none_of_absent
        intro p hp hkey
        have hpk := emitKeys_forest cfg ds segs p (List.mem_reverse.mp hp)
        exact hnd.2.2 hq (hkey ▸ hpk)
      rw [lookup_append_cases, h1]
      by_cases hce : c.listable = true ∧ emit_cond cfg (segs ++ [c.name]) = true
      · rw [if_pos (by simp [hce.1, hce.2])]
        rw [lookup_append_cases]
        have h2 : List.lookup (render cfg.mount (segs ++ [c.name]))
            (emitEntries cfg c (segs ++ [c.name])).reverse =
              some (agg cfg c (segs ++ [c.name])) := by
          apply lookup_eq_some_of_unique
          · exact List.mem_reverse.mpr (emit_own_mem cfg c (segs ++ [c.name]) hce.1 hce.2)
          · intro p hp hkey
            have := emitUnique_tree cfg c (segs ++ [c.name]) hnd.1 p
              (List.mem_reverse.mp hp) _
              (emit_own_mem cfg c (segs ++ [c.name]) hce.1 hce.2) (by exact hkey)
            exact congrArg Prod.snd this
        rw [h2]
      · rw [if_neg (by
          intro hb
          rcases Bool.and_eq_true _ _ |>.mp hb with ⟨hb1, hb2⟩
          exact hce ⟨hb1, hb2⟩)]
        rw [lookup_append_cases]
        have h2 : List.lookup (render cfg.mount (segs ++ [c.name]))
            (emitEntries cfg c (segs ++ [c.name])).reverse = none := by
          apply lookup_eq_none_of_absent
          intro p hp
          exact emit_root_absent cfg c (segs ++ [c.name]) hnd.1 hce p (List.mem_reverse.mp hp)
        have h3 : List.lookup (render cfg.mount (segs ++ [c.name])) D0 = none := by
          apply lookup_eq_none_of_absent
          intro p hp hkey
          refine hdisj p.1 ((mem_keysOf D0 p.1).mpr ⟨p, hp, rfl⟩) ?_
          rw [hkey]
          rw [allForest_cons]
          exact List.mem_append_left _ hq
        rw [h2, h3]
    · exact ih ((emitEntries cfg d (segs ++ [d.name])).reverse ++ D0) hnd.2.1
        (by
          intro k hk
          rw [keysOf_append] at hk
          rcases List.mem_append.mp hk with hk | hk
          · obtain ⟨p, hp, rfl⟩ := (mem_keysOf _ _).mp hk
            exact fun hmem => hnd.2.2
              (emitKeys_tree cfg d (segs ++ [d.name]) p (List.mem_reverse.mp hp)) hmem
          · intro hmem
            refine hdisj k hk ?_
            rw [allForest_cons]
            exact List.mem_append_right _ hmem)
        c hc

theorem addChildren_cons (D : List (String × Entry)) (root n : String)
    (ns : List String) (e : Entry) :
    addChildren D root (n :: ns) e =
      addChildren D root ns
        (match D.lookup (pjoin root n) with
         | some sub =>
             { e with size := e.size + sub.size,
                      file_count := e.file_count + sub.file_count,
                      dir_count := e.dir_count + sub.dir_count + 1 }
         | none => e) := rfl

theorem addChildren_eq_aggKids (cfg : ScanCfg) (segs : List String) (D : List (String × Entry)) :
    ∀ (sd : List FSTree) (base : Entry),
      (∀ c ∈ sd, List.lookup (render cfg.mount (segs ++ [c.name])) D =
        (if c.listable && emit_cond cfg (segs ++ [c.name]) then
          some (agg cfg c (segs ++ [c.name])) else none)) →
      addChildren D (render cfg.mount segs) (sd.map FSTree.name) base =
        { base with size := base.size + (aggKids cfg sd segs).1,
                    file_count := base.file_count + (aggKids cfg sd segs).2.1,
                    dir_count := base.dir_count + (aggKids cfg sd segs).2.2 } := by
  intro sd
  induction sd with
  | nil => intro base _; simp [addChildren, aggKids]
  | cons c cs ih =>
    intro base hlook
    have hc := hlook c (List.mem_cons_self _ _)
    rw [render_append] at hc
    have hrest : ∀ c' ∈ cs, List.lookup (render cfg.mount (segs ++ [c'.name])) D =
        (if c'.listable && emit_cond cfg (segs ++ [c'.name]) then
          some (agg cfg c' (segs ++ [c'.name])) else none) :=
      fun c' hc' => hlook c' (List.mem_cons_of_mem _ hc')
    rw [List.map_cons, addChildren_cons, hc]
    by_cases hce : (c.listable && emit_cond cfg (segs ++ [c.name])) = true
    · rw [if_pos hce, ih _ hrest]
      simp only [aggKids]
      rw [if_pos hce]
      simp only [Entry.mk.injEq, true_and, and_true]
      omega
    · rw [if_neg hce, ih _ hrest]
      simp only [aggKids]
      rw [if_neg hce]

theorem scanFold_append (cfg : ScanCfg) (st : ScanState) (a b : List WalkItem) :
    scanFold cfg st (a ++ b) = scanFold cfg (scanFold cfg st a) b := by
  simp [scanFold, List.foldl_append]

mutual
theorem scanFold_walk_tree (cfg : ScanCfg) :
    ∀ (t : FSTree) (segs : List String) (st : ScanState),
      t.listable = true →
      (allPaths cfg.mount t segs).Nodup →
      (∀ k ∈ keysOf st.dirSizes, k ∉ allPaths cfg.mount t segs) →
      (scanFold cfg st (t.walk segs)).dirSizes =
        (emitEntries cfg t segs).reverse ++ st.dirSizes
  | .node n false fs sd, segs => by intro st hl; cases hl
  | .node n true fs sd, segs => by
    intro st _ hnd hdisj
    rw [allPaths_node, List.nodup_cons] at hnd
    have hdisj' : ∀ k ∈ keysOf st.dirSizes, k ∉ allForest cfg.mount sd segs := by
      intro k hk hmem
      exact hdisj k hk (by rw [allPaths_node]; exact List.mem_cons_of_mem _ hmem)
    have hforest := scanFold_walk_forest cfg sd segs st hnd.2 hdisj'
    have hw : (FSTree.node n true fs sd).walk segs =
        walkForest sd segs ++ [⟨segs, .node n true fs sd⟩] := rfl
    rw [hw, scanFold_append]
    have hsingle : ∀ st', scanFold cfg st' [(⟨segs, .node n true fs sd⟩ : WalkItem)] =
        stepDir cfg st' ⟨segs, .node n true fs sd⟩ := fun _ => rfl
    rw [hsingle]
    by_cases he : emit_cond cfg segs = true
    · rw [stepDir_emit_dirSizes cfg _ ⟨segs, .node n true fs sd⟩ he]
      have hlook := lookup_child cfg segs sd st.dirSizes hnd.2 hdisj'
      have hstep : stepEntry cfg (scanFold cfg st (walkForest sd segs))
          ⟨segs, .node n true fs sd⟩ = agg cfg (.node n true fs sd) segs := by
        rw [stepEntry]
        simp only [FSTree.subdirs, FSTree.files]
        rw [hforest]
        rw [addChildren_eq_aggKids cfg segs _ sd _ (fun c hc => hlook c hc)]
        rw [agg]
        simp
      rw [hstep, hforest]
      have hee : emitEntries cfg (.node n true fs sd) segs =
          emitForest cfg sd segs ++
            [(render cfg.mount segs, agg cfg (.node n true fs sd) segs)] := by
        rw [emitEntries, if_pos he]
      rw [hee]
      simp
    · have hfe : emit_cond cfg segs = false := by simpa using he
      rw [stepDir_not_emit cfg _ ⟨segs, .node n true fs sd⟩ hfe, hforest]
      have hee : emitEntries cfg (.node n true fs sd) segs = emitForest cfg sd segs := by
        rw [emitEntries, if_neg he, List.append_nil]
      rw [hee]

theorem scanFold_walk_forest (cfg : ScanCfg) :
    ∀ (sd : List FSTree) (segs : List String) (st : ScanState),
      (allForest cfg.mount sd segs).Nodup →
      (∀ k ∈ keysOf st.dirSizes, k ∉ allForest cfg.mount sd segs) →
      (scanFold cfg st (walkForest sd segs)).dirSizes =
        (emitForest cfg sd segs).reverse ++ st.dirSizes
  | [], segs => by intro st _ _; simp [walkForest, scanFold, emitForest]
  | c :: cs, segs => by
    intro st hnd hdisj
    rw [allForest_cons, List.nodup_append] at hnd
    have hw : walkForest (c :: cs) segs =
        c.walk (segs ++ [c.name]) ++ walkForest cs segs := rfl
    have hef : emitForest cfg (c :: cs) segs =
        emitEntries cfg c (segs ++ [c.name]) ++ emitForest cfg cs segs := rfl
    rw [hw, hef, scanFold_append]
    by_cases hl : c.listable = true
    · have h1 := scanFold_walk_tree cfg c (segs ++ [c.name]) st hl hnd.1
        (fun k hk hmem =>
          hdisj k hk (by rw [allForest_cons]; exact List.mem_append_left _ hmem))
      have h2 := scanFold_walk_forest cfg cs segs
        (scanFold cfg st (c.walk (segs ++ [c.name]))) hnd.2.1
        (by
          intro k hk hmem
          rw [h1, keysOf_append] at hk
          rcases List.mem_append.mp hk with hk | hk
          · obtain ⟨p, hp, rfl⟩ := (mem_keysOf _ _).mp hk
            exact hnd.2.2
              (emitKeys_tree cfg c (segs ++ [c.name]) p (List.mem_reverse.mp hp)) hmem
          · exact hdisj k hk
              (by rw [allForest_cons]; exact List.mem_append_right _ hmem))
      rw [h2, h1]
      simp
    · have hl' : c.listable = false := by simpa using hl
      rw [walk_unlistable c _ hl', emit_unlistable cfg c _ hl']
      simp only [List.nil_append]
      exact scanFold_walk_forest cfg cs segs st hnd.2.1
        (fun k hk hmem =>
          hdisj k hk (by rw [allForest_cons]; exact List.mem_append_right _ hmem))
end

theorem scan_false_shape (sp : List String) (md : Nat) (mount : String) (t : FSTree)
    (db : DB) (now : Nat) :
    scan sp md mount (some t) (fun _ => false) db now =
      (.ok (scanFold ⟨mount, skipSet sp, md⟩
              ⟨(db.create_snapshot mount now).2, db.nextId, [], [], ⟨0, 0, 0, 0⟩⟩
              (t.walk [])).stats,
       DB.complete_snapshot
         { nextId := (scanFold ⟨mount, skipSet sp, md⟩
              ⟨(db.create_snapshot mount now).2, db.nextId, [], [], ⟨0, 0, 0, 0⟩⟩
              (t.walk [])).db.nextId,
           snapshots := (scanFold ⟨mount, skipSet sp, md⟩
              ⟨(db.create_snapshot mount now).2, db.nextId, [], [], ⟨0, 0, 0, 0⟩⟩
              (t.walk [])).db.snapshots,
           entries := outE (scanFold ⟨mount, skipSet sp, md⟩
              ⟨(db.create_snapshot mount now).2, db.nextId, [], [], ⟨0, 0, 0, 0⟩⟩
              (t.walk [])),
           scan_errors := (scanFold ⟨mount, skipSet sp, md⟩
              ⟨(db.create_snapshot mount now).2, db.nextId, [], [], ⟨0, 0, 0, 0⟩⟩
              (t.walk [])).db.scan_errors }
         db.nextId
         (scanFold ⟨mount, skipSet sp, md⟩
              ⟨(db.create_snapshot mount now).2, db.nextId, [], [], ⟨0, 0, 0, 0⟩⟩
              (t.walk [])).stats.total_size
         (scanFold ⟨mount, skipSet sp, md⟩
              ⟨(db.create_snapshot mount now).2, db.nextId, [], [], ⟨0, 0, 0, 0⟩⟩
              (t.walk [])).stats.total_files
         (scanFold ⟨mount, skipSet sp, md⟩
              ⟨(db.create_snapshot mount now).2, db.nextId, [], [], ⟨0, 0, 0, 0⟩⟩
              (t.walk [])).stats.total_dirs
         now) := by
  simp only [scan, scanLoop_eq, takeUntilCancel_false, loopCancelled_false]
  have h1 : (db.create_snapshot mount now).1 = db.nextId := rfl
  rw [h1]
  set st := scanFold ⟨mount, skipSet sp, md⟩
      ⟨(db.create_snapshot mount now).2, db.nextId, [], [], ⟨0, 0, 0, 0⟩⟩
      (t.walk []) with hst
  have hsid : st.sid = db.nextId := scanFold_sid _ _ _
  by_cases hb : st.batch = []
  · rw [if_pos hb, if_neg (show ¬(false = true) by simp)]
    simp [outE, hb, hsid]
  · rw [if_neg hb, if_neg (show ¬(false = true) by simp)]
    simp [outE, DB.insert_entries_batch, hsid]

theorem filter_ne_sid (sid : Nat) :
    ∀ l : List (Nat × Entry), (∀ p ∈ l, p.1 ≠ sid) →
      l.filter (fun p => p.1 == sid) = [] := by
  intro l
  induction l with
  | nil => intro _; rfl
  | cons p ps ih =>
    intro h
    rw [List.filter_cons]
    rw [show (p.1 == sid) = false by simpa using h p (List.mem_cons_self _ _)]
    exact ih (fun q hq => h q (List.mem_cons_of_mem _ hq))

theorem entriesOf_mk (nid : Nat) (snaps : List SnapRow) (old : List (Nat × Entry))
    (errs : List ScanError) (sid : Nat) (xs : List Entry)
    (h : ∀ p ∈ old, p.1 ≠ sid) :
    DB.entriesOf ⟨nid, snaps, old ++ xs.map (fun e => (sid, e)), errs⟩ sid = xs := by
  simp only [DB.entriesOf, List.filter_append, filter_ne_sid sid old h, List.nil_append]
  rw [List.filter_map]
  simp

/-- The final database's entries for the new snapshot, for a completed
(cancel-free) scan: exactly the emitted `(path, entry)` pairs, in emission
order. -/
theorem scan_entriesOf (sp : List String) (md : Nat) (mount : String) (t : FSTree)
    (db : DB) (now : Nat) (hnd : (allPaths mount t []).Nodup) (hwf : db.wf) :
    ((scan sp md mount (some t) (fun _ => false) db now).2).entriesOf db.nextId =
      (emitEntries ⟨mount, skipSet sp, md⟩ t []).map Prod.snd := by
  obtain ⟨-, hent, -⟩ := hwf
  rw [scan_false_shape]
  set cfg : ScanCfg := ⟨mount, skipSet sp, md⟩ with hcfg
  set st0 : ScanState :=
    ⟨(db.create_snapshot mount now).2, db.nextId, [], [], ⟨0, 0, 0, 0⟩⟩ with hst0
  have hout : outE (scanFold cfg st0 (t.walk [])) =
      db.entries ++ (emitEntries cfg t []).map (fun pe => (db.nextId, pe.2)) := by
    obtain ⟨X, h1, h2⟩ := scanFold_out cfg (t.walk []) st0
    have hX : X = (emitEntries cfg t []).reverse := by
      by_cases hl : t.listable = true
      · have := scanFold_walk_tree cfg t [] st0 hl (by exact hnd) (by intro k hk; cases hk)
        rw [this] at h1
        simpa using h1.symm
      · have hl' : t.listable = false := by simpa using hl
        rw [walk_unlistable t [] hl'] at h1
        rw [emit_unlistable cfg t [] hl']
        simpa [scanFold] using h1.symm
    rw [h2, hX]
    have hst0out : outE st0 = db.entries := by
      simp [outE, hst0, DB.create_snapshot]
    rw [hst0out]
    simp [hst0]
  have hcs : ∀ (d : DB) (a b c : Nat),
      (DB.complete_snapshot d db.nextId a b c now).entries = d.entries := by
    intro d a b c; rfl
  rw [DB.entriesOf]
  rw [hcs]
  show DB.entriesOf ⟨_, _, outE (scanFold cfg st0 (t.walk [])), _⟩ db.nextId = _
  rw [hout]
  rw [show (emitEntries cfg t []).map (fun pe => (db.nextId, pe.2)) =
    ((emitEntries cfg t []).map Prod.snd).map (fun e => (db.nextId, e)) by
      simp [List.map_map]]
  exact entriesOf_mk _ _ _ _ _ _ (fun p hp => Nat.ne_of_lt (hent p hp))

/-- The final `scan_errors` for a completed (cancel-free) scan: the old rows
plus exactly the per-file stat failures of the emitted directories, in walk
order. -/
theorem scan_errors_eq (sp : List String) (md : Nat) (mount : String) (t : FSTree)
    (db : DB) (now : Nat) :
    ((scan sp md mount (some t) (fun _ => false) db now).2).scan_errors =
      db.scan_errors ++ itemsErrors ⟨mount, skipSet sp, md⟩ db.nextId (t.walk []) := by
  rw [scan_false_shape]
  have := scanFold_errors ⟨mount, skipSet sp, md⟩ (t.walk [])
    ⟨(db.create_snapshot mount now).2, db.nextId, [], [], ⟨0, 0, 0, 0⟩⟩
  simp only [DB.create_snapshot] at this
  rw [show ∀ (d : DB) (a b c : Nat),
      (DB.complete_snapshot d db.nextId a b c now).scan_errors = d.scan_errors
    from fun d a b c => rfl]
  exact this

/-- The returned `stats` of a completed (cancel-free) scan: component sums
over the walk. -/
theorem scan_result_eq (sp : List String) (md : Nat) (mount : String) (t : FSTree)
    (db : DB) (now : Nat) :
    (scan sp md mount (some t) (fun _ => false) db now).1 =
      .ok ⟨((t.walk []).map (itemSize ⟨mount, skipSet sp, md⟩)).sum,
           ((t.walk []).map (itemFiles ⟨mount, skipSet sp, md⟩)).sum,
           ((t.walk []).map (itemDirs ⟨mount, skipSet sp, md⟩)).sum,
           (itemsErrors ⟨mount, skipSet sp, md⟩ db.nextId (t.walk [])).length⟩ := by
  rw [scan_false_shape]
  have := scanFold_stats ⟨mount, skipSet sp, md⟩ (t.walk [])
    ⟨(db.create_snapshot mount now).2, db.nextId, [], [], ⟨0, 0, 0, 0⟩⟩
  simp only [] at this
  rw [show (Except.ok (ε := String) (scanFold ⟨mount, skipSet sp, md⟩
      ⟨(db.create_snapshot mount now).2, db.nextId, [], [], ⟨0, 0, 0, 0⟩⟩
      (t.walk [])).stats, _).1 = _ from rfl]
  rw [this]
  simp

/-- The snapshot row of a completed (cancel-free) scan. -/
theorem scan_snapshot_row (sp : List String) (md : Nat) (mount : String) (t : FSTree)
    (db : DB) (now : Nat) (hwf : db.wf) :
    ((scan sp md mount (some t) (fun _ => false) db now).2).snapshots.find?
        (fun r => r.id == db.nextId) =
      some { id := db.nextId, mount_point := mount, started_at := now,
             completed_at := some now,
             total_size := ((t.walk []).map (itemSize ⟨mount, skipSet sp, md⟩)).sum,
             total_files := ((t.walk []).map (itemFiles ⟨mount, skipSet sp, md⟩)).sum,
             total_dirs := ((t.walk []).map (itemDirs ⟨mount, skipSet sp, md⟩)).sum,
             status := "completed" } := by
  obtain ⟨hs, -, -⟩ := hwf
  rw [scan_false_shape]
  set st := scanFold ⟨mount, skipSet sp, md⟩
      ⟨(db.create_snapshot mount now).2, db.nextId, [], [], ⟨0, 0, 0, 0⟩⟩
      (t.walk []) with hstdef
  have hsnaps : st.db.snapshots = db.snapshots ++
      [{ id := db.nextId, mount_point := mount, started_at := now,
         completed_at := none, total_size := 0, total_files := 0,
         total_dirs := 0, status := "running" }] := by
    rw [hstdef, scanFold_snapshots]
    rfl
  simp only [DB.complete_snapshot, hsnaps]
  rw [find_snapshot_update
    (fun r => if r.id = db.nextId then
      { r with completed_at := some now, total_size := st.stats.total_size,
               total_files := st.stats.total_files, total_dirs := st.stats.total_dirs,
               status := "completed" } else r)
    (fun r => by by_cases h : r.id = db.nextId <;> simp [h]) db.nextId
    { id := db.nextId, mount_point := mount, started_at := now,
      completed_at := none, total_size := 0, total_files := 0,
      total_dirs := 0, status := "running" } rfl db.snapshots
    (fun r hr => Nat.ne_of_lt (hs r hr))]
  have hstats := scanFold_stats ⟨mount, skipSet sp, md⟩ (t.walk [])
    ⟨(db.create_snapshot mount now).2, db.nextId, [], [], ⟨0, 0, 0, 0⟩⟩
  rw [← hstdef] at hstats
  simp [hstats]

/-! Claim C4: directories whose listing fails. -/

set_option maxRecDepth 10000 in
/-- C4 (counterexample to the claim as stated): scanning `exT4`, whose child
`/m/a` cannot be listed, emits no Entry at all for `/m/a` (zero-size or
otherwise) and records no ScanError row — the walk error reaches only the
application logger.  Traversal does continue: the sibling `/m/b` and the root
still get entries (with `/m/b`'s 7 bytes aggregated into the root). -/
theorem C4_counterexample :
    ((scan [] 0 "/m" (some exT4) (fun _ => false) emptyDB 0).2.entriesOf 1).map Entry.path =
      ["/m/b", "/m"] ∧
    (scan [] 0 "/m" (some exT4) (fun _ => false) emptyDB 0).2.scan_errors = [] ∧
    (∀ e ∈ (scan [] 0 "/m" (some exT4) (fun _ => false) emptyDB 0).2.entriesOf 1,
      e.path ≠ "/m/a") ∧
    ((scan [] 0 "/m" (some exT4) (fun _ => false) emptyDB 0).2.entriesOf 1).map Entry.size =
      [7, 7] := by
  decide

/-- C4 (amended): a directory whose listing fails contributes nothing
persistent — no Entry and no ScanError (`_walk_error_handler` only writes to
the application logger), and its whole subtree is omitted — while traversal
continues with its siblings: the walk yields exactly the listable directories,
the snapshot's entries are exactly the emitted aggregates of those walk items,
and every persisted ScanError is a per-file stat failure inside some visited
directory. -/
theorem C4_unlistable_dirs (sp : List String) (md : Nat) (mount : String)
    (t : FSTree) (db : DB) (now : Nat)
    (hnd : (allPaths mount t []).Nodup) (hwf : db.wf) :
    (∀ w ∈ t.walk [], w.node.listable = true) ∧
    ((scan sp md mount (some t) (fun _ => false) db now).2).entriesOf db.nextId =
      (emitEntries ⟨mount, skipSet sp, md⟩ t []).map Prod.snd ∧
    (∀ e ∈ ((scan sp md mount (some t) (fun _ => false) db now).2).entriesOf db.nextId,
      ∃ w ∈ t.walk [], emit_cond ⟨mount, skipSet sp, md⟩ w.segs = true ∧
        e = agg ⟨mount, skipSet sp, md⟩ w.node w.segs) ∧
    ((scan sp md mount (some t) (fun _ => false) db now).2).scan_errors =
      db.scan_errors ++ itemsErrors ⟨mount, skipSet sp, md⟩ db.nextId (t.walk []) ∧
    ∀ er ∈ itemsErrors ⟨mount, skipSet sp, md⟩ db.nextId (t.walk []),
      ∃ w ∈ t.walk [], ∃ f ∈ w.node.files, ∃ ty msg,
        f.stat = .err ty msg ∧
        er = ⟨db.nextId, pjoin (render mount w.segs) f.name, ty, msg⟩ := by
  refine ⟨walk_listable t [], scan_entriesOf sp md mount t db now hnd hwf, ?_,
    scan_errors_eq sp md mount t db now, ?_⟩
  · intro e he
    rw [scan_entriesOf sp md mount t db now hnd hwf] at he
    obtain ⟨p, hp, rfl⟩ := List.mem_map.mp he
    rw [emit_eq_walk] at hp
    obtain ⟨w, hw, hfw⟩ := List.mem_filterMap.mp hp
    by_cases hec : emit_cond ⟨mount, skipSet sp, md⟩ w.segs = true
    · rw [if_pos hec] at hfw
      refine ⟨w, hw, hec, ?_⟩
      rw [← Option.some_inj.mp hfw]
    · rw [if_neg hec] at hfw
      cases hfw
  · intro er her
    rw [itemsErrors] at her
    obtain ⟨x, hx, herx⟩ := List.mem_flatten.mp her
    obtain ⟨w, hw, rfl⟩ := List.mem_map.mp hx
    rw [itemErrors] at herx
    by_cases hec : emit_cond ⟨mount, skipSet sp, md⟩ w.segs = true
    · rw [if_pos hec] at herx
      obtain ⟨f, hf, hff⟩ := List.mem_filterMap.mp herx
      cases hst : f.stat with
      | ok sz => rw [hst] at hff; cases hff
      | err ty msg =>
        rw [hst] at hff
        exact ⟨w, hw, f, hf, ty, msg, hst, (Option.some_inj.mp hff).symm⟩
    · rw [if_neg hec] at herx
      cases herx

/-- Witness for `C4_unlistable_dirs`: the entries characterization at the
concrete scan of `exT4`. -/
theorem C4_unlistable_dirs_witness :
    ((scan [] 0 "/m" (some exT4) (fun _ => false) emptyDB 0).2).entriesOf emptyDB.nextId =
      (emitEntries ⟨"/m", skipSet [], 0⟩ exT4 []).map Prod.snd :=
  (C4_unlistable_dirs [] 0 "/m" exT4 emptyDB 0 (by decide) (by decide)).2.1

/-! Claim C7: cooperative cancellation. -/

theorem scan_cancel_shape (sp : List String) (md : Nat) (mount : String) (t : FSTree)
    (db : DB) (now : Nat) (cancel : Nat → Bool)
    (hc : loopCancelled cancel (t.walk []) 0 = true) :
    scan sp md mount (some t) cancel db now =
      (.ok (scanFold ⟨mount, skipSet sp, md⟩
              ⟨(db.create_snapshot mount now).2, db.nextId, [], [], ⟨0, 0, 0, 0⟩⟩
              (takeUntilCancel cancel (t.walk []) 0)).stats,
       DB.fail_snapshot
         { nextId := (scanFold ⟨mount, skipSet sp, md⟩
              ⟨(db.create_snapshot mount now).2, db.nextId, [], [], ⟨0, 0, 0, 0⟩⟩
              (takeUntilCancel cancel (t.walk []) 0)).db.nextId,
           snapshots := (scanFold ⟨mount, skipSet sp, md⟩
              ⟨(db.create_snapshot mount now).2, db.nextId, [], [], ⟨0, 0, 0, 0⟩⟩
              (takeUntilCancel cancel (t.walk []) 0)).db.snapshots,
           entries := outE (scanFold ⟨mount, skipSet sp, md⟩
              ⟨(db.create_snapshot mount now).2, db.nextId, [], [], ⟨0, 0, 0, 0⟩⟩
              (takeUntilCancel cancel (t.walk []) 0)),
           scan_errors := (scanFold ⟨mount, skipSet sp, md⟩
              ⟨(db.create_snapshot mount now).2, db.nextId, [], [], ⟨0, 0, 0, 0⟩⟩
              (takeUntilCancel cancel (t.walk []) 0)).db.scan_errors }
         db.nextId "Cancelled by user" now) := by
  simp only [scan, scanLoop_eq, hc]
  have h1 : (db.create_snapshot mount now).1 = db.nextId := rfl
  rw [h1]
  set st := scanFold ⟨mount, skipSet sp, md⟩
      ⟨(db.create_snapshot mount now).2, db.nextId, [], [], ⟨0, 0, 0, 0⟩⟩
      (takeUntilCancel cancel (t.walk []) 0) with hst
  have hsid : st.sid = db.nextId := scanFold_sid _ _ _
  by_cases hb : st.batch = []
  · rw [if_pos hb, if_pos trivial]
    simp [outE, hb, hsid]
  · rw [if_neg hb, if_pos trivial]
    simp [outE, DB.insert_entries_batch, hsid]

set_option maxRecDepth 10000 in
/-- C7 (counterexample to the claim as stated): a cancelled scan marks the
snapshot failed with the persisted reason text `"Cancelled by user"`, not
`"cancelled"`. -/
theorem C7_counterexample :
    (scan [] 0 "/m" (some exT7) (fun _ => true) emptyDB 0).2.scan_errors =
      [⟨1, "/", "FATAL", "Cancelled by user"⟩] ∧
    ((scan [] 0 "/m" (some exT7) (fun _ => true) emptyDB 0).2.snapshots.map
        SnapRow.status) = ["failed"] ∧
    "Cancelled by user" ≠ "cancelled" := by
  decide

/-- C7 (amended): when the per-directory cancellation check reads true, the
loop stops at that directory — only the walk prefix before the first true
reading is processed — the remainder batch is still flushed so that every
accumulated directory entry (each fully computed, mirroring the `dir_sizes`
dict) is queryable, the snapshot transitions to `failed` with the persisted
reason `"Cancelled by user"` (as a `FATAL` row at path `"/"`), and no
exception reaches the caller. -/
theorem C7_cancellation (sp : List String) (md : Nat) (mount : String) (t : FSTree)
    (db : DB) (now : Nat) (cancel : Nat → Bool)
    (hwf : db.wf) (hc : loopCancelled cancel (t.walk []) 0 = true) :
    (scan sp md mount (some t) cancel db now).1 =
      .ok (scanFold ⟨mount, skipSet sp, md⟩
            ⟨(db.create_snapshot mount now).2, db.nextId, [], [], ⟨0, 0, 0, 0⟩⟩
            (takeUntilCancel cancel (t.walk []) 0)).stats ∧
    (∃ r, ((scan sp md mount (some t) cancel db now).2).snapshots.find?
            (fun r => r.id == db.nextId) = some r ∧
          r.status = "failed" ∧ r.completed_at = some now) ∧
    ((scan sp md mount (some t) cancel db now).2).scan_errors.getLast? =
      some ⟨db.nextId, "/", "FATAL", "Cancelled by user"⟩ ∧
    ((scan sp md mount (some t) cancel db now).2).entriesOf db.nextId =
      (((scanFold ⟨mount, skipSet sp, md⟩
          ⟨(db.create_snapshot mount now).2, db.nextId, [], [], ⟨0, 0, 0, 0⟩⟩
          (takeUntilCancel cancel (t.walk []) 0)).dirSizes).map Prod.snd).reverse := by
  obtain ⟨hs, hent, -⟩ := hwf
  rw [scan_cancel_shape sp md mount t db now cancel hc]
  set st := scanFold ⟨mount, skipSet sp, md⟩
      ⟨(db.create_snapshot mount now).2, db.nextId, [], [], ⟨0, 0, 0, 0⟩⟩
      (takeUntilCancel cancel (t.walk []) 0) with hstdef
  have hsnaps : st.db.snapshots = db.snapshots ++
      [{ id := db.nextId, mount_point := mount, started_at := now,
         completed_at := none, total_size := 0, total_files := 0,
         total_dirs := 0, status := "running" }] := by
    rw [hstdef, scanFold_snapshots]
    rfl
  refine ⟨rfl, ?_, ?_, ?_⟩
  · simp only [DB.fail_snapshot, hsnaps]
    rw [find_snapshot_update
      (fun r => if r.id = db.nextId then
        { r with completed_at := some now, status := "failed" } else r)
      (fun r => by by_cases h : r.id = db.nextId <;> simp [h]) db.nextId
      { id := db.nextId, mount_point := mount, started_at := now,
        completed_at := none, total_size := 0, total_files := 0,
        total_dirs := 0, status := "running" } rfl db.snapshots
      (fun r hr => Nat.ne_of_lt (hs r hr))]
    exact ⟨_, rfl, by simp, by simp⟩
  · simp [DB.fail_snapshot]
  · obtain ⟨X, h1, h2⟩ := scanFold_out ⟨mount, skipSet sp, md⟩
      (takeUntilCancel cancel (t.walk []) 0)
      ⟨(db.create_snapshot mount now).2, db.nextId, [], [], ⟨0, 0, 0, 0⟩⟩
    rw [← hstdef] at h1 h2
    have hX : X = st.dirSizes := by simpa using h1.symm
    subst hX
    have hout : outE st = db.entries ++
        ((st.dirSizes.map Prod.snd).reverse).map (fun e => (db.nextId, e)) := by
      rw [h2]
      have hst0out : outE (⟨(db.create_snapshot mount now).2, db.nextId, [], [],
          ⟨0, 0, 0, 0⟩⟩ : ScanState) = db.entries := by
        simp [outE, DB.create_snapshot]
      rw [hst0out]
      simp [List.map_reverse, List.map_map]
    show DB.entriesOf ⟨_, _, outE st, _⟩ db.nextId = _
    rw [hout]
    exact entriesOf_mk _ _ _ _ _ _ (fun p hp => Nat.ne_of_lt (hent p hp))

/-- Witness for `C7_cancellation` at a concrete immediately-cancelled scan. -/
theorem C7_cancellation_witness :
    (scan [] 0 "/m" (some exT7) (fun _ => true) emptyDB 0).1 =
      .ok (scanFold ⟨"/m", skipSet [], 0⟩
            ⟨(emptyDB.create_snapshot "/m" 0).2, emptyDB.nextId, [], [], ⟨0, 0, 0, 0⟩⟩
            (takeUntilCancel (fun _ => true) (exT7.walk []) 0)).stats :=
  (C7_cancellation [] 0 "/m" exT7 emptyDB 0 (fun _ => true) (by decide) (by decide)).1

theorem agg_path (cfg : ScanCfg) (t : FSTree) (segs : List String) :
    (agg cfg t segs).path = render cfg.mount segs := by
  cases t with
  | node n l fs sd => rw [agg]

theorem agg_dir_count (cfg : ScanCfg) (t : FSTree) (segs : List String) :
    (agg cfg t segs).dir_count = (aggKids cfg t.subdirs segs).2.2 := by
  cases t with
  | node n l fs sd => rw [agg]; rfl

theorem agg_size (cfg : ScanCfg) (t : FSTree) (segs : List String) :
    (agg cfg t segs).size = fileSizeSum t.files + (aggKids cfg t.subdirs segs).1 := by
  cases t with
  | node n l fs sd => rw [agg]; rfl

theorem agg_file_count (cfg : ScanCfg) (t : FSTree) (segs : List String) :
    (agg cfg t segs).file_count = fileOkCount t.files + (aggKids cfg t.subdirs segs).2.1 := by
  cases t with
  | node n l fs sd => rw [agg]; rfl

theorem emit_pair_path (cfg : ScanCfg) (t : FSTree) (segs : List String) :
    ∀ pr ∈ emitEntries cfg t segs, pr.2.path = pr.1 := by
  intro pr hpr
  rw [emit_eq_walk] at hpr
  obtain ⟨w, _, hfw⟩ := List.mem_filterMap.mp hpr
  by_cases hec : emit_cond cfg w.segs = true
  · rw [if_pos hec] at hfw
    rw [← Option.some_inj.mp hfw]
    exact agg_path cfg w.node w.segs
  · rw [if_neg hec] at hfw
    cases hfw

theorem self_mem_walk (t : FSTree) (segs : List String) (hl : t.listable = true) :
    (⟨segs, t⟩ : WalkItem) ∈ t.walk segs := by
  cases t with
  | node n l fs sd =>
    cases l with
    | false => cases hl
    | true => exact List.mem_append_right _ (List.mem_singleton.mpr rfl)

theorem mem_walkForest_of_mem_child (segs : List String) :
    ∀ (sd : List FSTree), ∀ c ∈ sd, ∀ x ∈ c.walk (segs ++ [c.name]),
      x ∈ walkForest sd segs := by
  intro sd
  induction sd with
  | nil => intro c hc; cases hc
  | cons d ds ih =>
    intro c hc x hx
    rcases List.mem_cons.mp hc with rfl | hc
    · exact List.mem_append_left _ hx
    · exact List.mem_append_right _ (ih c hc x hx)

mutual
theorem walk_mem_child (t : FSTree) : ∀ (segs0 : List String),
    ∀ w ∈ t.walk segs0, ∀ c ∈ w.node.subdirs, c.listable = true →
      (⟨w.segs ++ [c.name], c⟩ : WalkItem) ∈ t.walk segs0 := by
  cases t with
  | node n l fs sd =>
    cases l with
    | false => intro segs0 w hw; cases hw
    | true =>
      intro segs0 w hw c hc hcl
      rcases List.mem_append.mp hw with hw | hw
      · exact List.mem_append_left _ (walkForest_mem_child sd segs0 w hw c hc hcl)
      · rcases List.mem_singleton.mp hw with rfl
        refine List.mem_append_left _ ?_
        exact mem_walkForest_of_mem_child segs0 sd c hc _ (self_mem_walk c _ hcl)

theorem walkForest_mem_child : ∀ (sd : List FSTree) (segs0 : List String),
    ∀ w ∈ walkForest sd segs0, ∀ c ∈ w.node.subdirs, c.listable = true →
      (⟨w.segs ++ [c.name], c⟩ : WalkItem) ∈ walkForest sd segs0
  | [], _ => by intro w hw; cases hw
  | d :: ds, segs0 => by
    intro w hw c hc hcl
    rcases List.mem_append.mp hw with hw | hw
    · exact List.mem_append_left _ (walk_mem_child d _ w hw c hc hcl)
    · exact List.mem_append_right _ (walkForest_mem_child ds segs0 w hw c hc hcl)
end

mutual
theorem walk_child_path_mem (mount : String) (t : FSTree) : ∀ (segs0 : List String),
    ∀ w ∈ t.walk segs0, ∀ c ∈ w.node.subdirs,
      render mount (w.segs ++ [c.name]) ∈ allPaths mount t segs0 := by
  cases t with
  | node n l fs sd =>
    cases l with
    | false => intro segs0 w hw; cases hw
    | true =>
      intro segs0 w hw c hc
      rw [allPaths_node]
      rcases List.mem_append.mp hw with hw | hw
      · exact List.mem_cons_of_mem _ (walkForest_child_path_mem mount sd segs0 w hw c hc)
      · rcases List.mem_singleton.mp hw with rfl
        refine List.mem_cons_of_mem _ ?_
        exact allPaths_sub_allForest mount segs0 sd c hc _ (render_mem_allPaths mount c _)

theorem walkForest_child_path_mem (mount : String) :
    ∀ (sd : List FSTree) (segs0 : List String),
      ∀ w ∈ walkForest sd segs0, ∀ c ∈ w.node.subdirs,
        render mount (w.segs ++ [c.name]) ∈ allForest mount sd segs0
  | [], _ => by intro w hw; cases hw
  | d :: ds, segs0 => by
    intro w hw c hc
    rw [allForest_cons]
    rcases List.mem_append.mp hw with hw | hw
    · exact List.mem_append_left _ (walk_child_path_mem mount d _ w hw c hc)
    · exact List.mem_append_right _ (walkForest_child_path_mem mount ds segs0 w hw c hc)
end

/-- An unemitted child of any forest member carries no emitted key in the
whole forest. -/
theorem unemitted_root_no_key_forest (cfg : ScanCfg) (segs : List String) :
    ∀ (sd : List FSTree),
      (allForest cfg.mount sd segs).Nodup →
      ∀ c ∈ sd, ¬(c.listable = true ∧ emit_cond cfg (segs ++ [c.name]) = true) →
      ∀ pr ∈ emitForest cfg sd segs, pr.1 ≠ render cfg.mount (segs ++ [c.name]) := by
  intro sd
  induction sd with
  | nil => intro _ c hc; cases hc
  | cons d ds ih =>
    intro hnd c hc hne pr hpr
    rw [allForest_cons, List.nodup_append] at hnd
    rw [emitForest] at hpr
    rcases List.mem_cons.mp hc with rfl | hc
    · rcases List.mem_append.mp hpr with hpr | hpr
      · exact emit_root_absent cfg c (segs ++ [c.name]) hnd.1 hne pr hpr
      · intro hkey
        exact hnd.2.2 (hkey ▸ render_mem_allPaths cfg.mount c (segs ++ [c.name]))
          (emitKeys_forest cfg ds segs pr hpr)
    · rcases List.mem_append.mp hpr with hpr | hpr
      · intro hkey
        refine hnd.2.2 (emitKeys_tree cfg d (segs ++ [d.name]) pr hpr) ?_
        rw [hkey]
        exact allPaths_sub_allForest cfg.mount segs ds c hc _ (render_mem_allPaths _ _ _)
      · exact ih hnd.2.1 c hc hne pr hpr

mutual
theorem unemitted_child_no_key (cfg : ScanCfg) (t : FSTree) : ∀ (segs0 : List String),
    (allPaths cfg.mount t segs0).Nodup →
    ∀ w ∈ t.walk segs0, ∀ c ∈ w.node.subdirs,
      ¬(c.listable = true ∧ emit_cond cfg (w.segs ++ [c.name]) = true) →
      ∀ pr ∈ emitEntries cfg t segs0, pr.1 ≠ render cfg.mount (w.segs ++ [c.name]) := by
  cases t with
  | node n l fs sd =>
    cases l with
    | false => intro segs0 _ w hw; cases hw
    | true =>
      intro segs0 hnd w hw c hc hne pr hpr
      have hq : render cfg.mount (w.segs ++ [c.name]) ∈ allForest cfg.mount sd segs0 := by
        rcases List.mem_append.mp hw with hw | hw
        · exact walkForest_child_path_mem cfg.mount sd segs0 w hw c hc
        · rcases List.mem_singleton.mp hw with rfl
          exact allPaths_sub_allForest cfg.mount segs0 sd c hc _ (render_mem_allPaths _ _ _)
      rw [allPaths_node, List.nodup_cons] at hnd
      rw [emitEntries] at hpr
      rcases List.mem_append.mp hpr with hpr | hpr
      · rcases List.mem_append.mp hw with hw | hw
        · exact unemitted_child_no_key_forest cfg sd segs0 hnd.2 w hw c hc hne pr hpr
        · rcases List.mem_singleton.mp hw with rfl
          exact unemitted_root_no_key_forest cfg segs0 sd hnd.2 c hc hne pr hpr
      · split at hpr
        · rcases List.mem_singleton.mp hpr with rfl
          intro hkey
          have hkey' : render cfg.mount segs0 = render cfg.mount (w.segs ++ [c.name]) := hkey
          exact hnd.1 (hkey' ▸ hq)
        · cases hpr

theorem unemitted_child_no_key_forest (cfg : ScanCfg) :
    ∀ (sd : List FSTree) (segs0 : List String),
      (allForest cfg.mount sd segs0).Nodup →
      ∀ w ∈ walkForest sd segs0, ∀ c ∈ w.node.subdirs,
        ¬(c.listable = true ∧ emit_cond cfg (w.segs ++ [c.name]) = true) →
        ∀ pr ∈ emitForest cfg sd segs0, pr.1 ≠ render cfg.mount (w.segs ++ [c.name])
  | [], _ => by intro _ w hw; cases hw
  | d :: ds, segs0 => by
    intro hnd w hw c hc hne pr hpr
    rw [allForest_cons, List.nodup_append] at hnd
    rw [emitForest] at hpr
    rcases List.mem_append.mp hw with hw | hw
    · have hq : render cfg.mount (w.segs ++ [c.name]) ∈
          allPaths cfg.mount d (segs0 ++ [d.name]) :=
        walk_child_path_mem cfg.mount d _ w hw c hc
      rcases List.mem_append.mp hpr with hpr | hpr
      · exact unemitted_child_no_key cfg d _ hnd.1 w hw c hc hne pr hpr
      · intro hkey
        exact hnd.2.2 (hkey ▸ hq) (emitKeys_forest cfg ds segs0 pr hpr)
    · have hq : render cfg.mount (w.segs ++ [c.name]) ∈ allForest cfg.mount ds segs0 :=
        walkForest_child_path_mem cfg.mount ds segs0 w hw c hc
      rcases List.mem_append.mp hpr with hpr | hpr
      · intro hkey
        exact hnd.2.2 (emitKeys_tree cfg d (segs0 ++ [d.name]) pr hpr) (hkey ▸ hq)
      · exact unemitted_child_no_key_forest cfg ds segs0 hnd.2.1 w hw c hc hne pr hpr
end

theorem find?_entry_eq_some (p : Entry → Bool) (v : Entry) :
    ∀ l : List Entry, v ∈ l → p v = true → (∀ x ∈ l, p x = true → x = v) →
      l.find? p = some v := by
  intro l
  induction l with
  | nil => intro h; cases h
  | cons x xs ih =>
    intro hmem hv huniq
    cases hx : p x with
    | true =>
      rw [List.find?_cons_of_pos _ hx]
      rw [huniq x (List.mem_cons_self _ _) hx]
    | false =>
      rw [List.find?_cons_of_neg _ (by simp [hx])]
      rcases List.mem_cons.mp hmem with rfl | hmem'
      · rw [hv] at hx; cases hx
      · exact ih hmem' hv (fun y hy => huniq y (List.mem_cons_of_mem _ hy))

theorem wfForest_mem : ∀ (sd : List FSTree), wfForestNames sd = true →
    ∀ c ∈ sd, goodName c.name = true ∧ wfNames c = true := by
  intro sd
  induction sd with
  | nil => intro _ c hc; cases hc
  | cons d ds ih =>
    intro h c hc
    rw [wfForestNames, Bool.and_eq_true, Bool.and_eq_true] at h
    rcases List.mem_cons.mp hc with rfl | hc
    · exact ⟨h.1.1, h.1.2⟩
    · exact ih h.2 c hc

mutual
theorem wf_walk (t : FSTree) : ∀ (segs0 : List String), wfNames t = true →
    ∀ w ∈ t.walk segs0, wfNames w.node = true := by
  cases t with
  | node n l fs sd =>
    cases l with
    | false => intro segs0 _ w hw; cases hw
    | true =>
      intro segs0 hwf w hw
      rcases List.mem_append.mp hw with hw | hw
      · exact wf_walkForest sd segs0 (by simpa [wfNames] using hwf) w hw
      · rcases List.mem_singleton.mp hw with rfl
        exact hwf

theorem wf_walkForest : ∀ (sd : List FSTree) (segs0 : List String),
    wfForestNames sd = true → ∀ w ∈ walkForest sd segs0, wfNames w.node = true
  | [], _ => by intro _ w hw; cases hw
  | d :: ds, segs0 => by
    intro hwf w hw
    rw [wfForestNames, Bool.and_eq_true, Bool.and_eq_true] at hwf
    rcases List.mem_append.mp hw with hw | hw
    · exact wf_walk d _ hwf.1.2 w hw
    · exact wf_walkForest ds segs0 hwf.2 w hw
end

theorem string_ne_data (n : String) (h : ¬n = "") : n.data ≠ [] := by
  intro hd
  apply h
  cases n with
  | mk d => rw [show d = [] from hd]

theorem goodName_parts (n : String) (h : goodName n = true) :
    n.data ≠ [] ∧ '/' ∉ n.data := by
  rw [goodName, Bool.and_eq_true] at h
  refine ⟨string_ne_data n (by simpa using h.1), ?_⟩
  have h2 := h.2
  simp only [Bool.not_eq_true'] at h2
  intro hmem
  have h3 : n.data.elem '/' = true := List.elem_eq_true_of_mem hmem
  rw [show n.data.contains '/' = n.data.elem '/' from rfl, h3] at h2
  cases h2

theorem slash_not_suffix (l nd : List Char) (h1 : nd ≠ []) (h2 : '/' ∉ nd) :
    List.isSuffixOf ['/'] (l ++ nd) = false := by
  obtain ⟨c, cs, hc⟩ := List.exists_cons_of_ne_nil
    (show nd.reverse ≠ [] by simpa using h1)
  have hcne : c ≠ '/' := by
    intro hceq
    apply h2
    rw [← hceq]
    exact List.mem_reverse.mp (hc ▸ List.mem_cons_self c cs)
  show List.isPrefixOf ['/'].reverse (l ++ nd).reverse = false
  rw [List.reverse_append, hc, List.reverse_singleton, List.cons_append]
  rw [show List.isPrefixOf ['/'] (c :: (cs ++ l.reverse)) =
    (('/' == c) && List.isPrefixOf ([] : List Char) (cs ++ l.reverse)) from rfl]
  rw [show ('/' == c) = false by simpa using Ne.symm hcne]
  rfl

theorem slash_data : ("/" : String).data = ['/'] := by decide

theorem pjoin_data (p n : String) (h : strEndsWith p "/" = false) :
    (pjoin p n).data = p.data ++ '/' :: n.data := by
  rw [pjoin, if_neg (by simp [h]), String.data_append, String.data_append, slash_data]
  simp

theorem pjoin_not_endsWith (p n : String) (hn : goodName n = true) :
    strEndsWith (pjoin p n) "/" = false := by
  obtain ⟨h1, h2⟩ := goodName_parts n hn
  rw [strEndsWith, pjoin, slash_data]
  split
  · rw [String.data_append]
    exact slash_not_suffix _ _ h1 h2
  · rw [String.data_append]
    exact slash_not_suffix _ _ h1 h2

theorem skip_step (skips : List String) (p n : String)
    (hp : should_skip skips p = true) (he : strEndsWith p "/" = false) :
    should_skip skips (pjoin p n) = true := by
  rw [should_skip_true_iff] at hp ⊢
  obtain ⟨s, hs, hcase⟩ := hp
  refine ⟨s, hs, Or.inr ?_⟩
  have hpj : (pjoin p n).data = p.data ++ '/' :: n.data := pjoin_data p n he
  rw [strStartsWith, hpj, List.isPrefixOf_iff_prefix]
  rcases hcase with rfl | hpre
  · rw [String.data_append]
    rw [show ("/" : String).data = ['/'] from rfl]
    rw [show (p.data ++ '/' :: n.data) = (p.data ++ ['/']) ++ n.data by simp]
    exact List.prefix_append _ _
  · rw [strStartsWith, List.isPrefixOf_iff_prefix] at hpre
    exact hpre.trans ⟨'/' :: n.data, rfl⟩

theorem emit_cond_false_of_skip (cfg : ScanCfg) (segs : List String)
    (h : should_skip cfg.skips (render cfg.mount segs) = true) :
    emit_cond cfg segs = false := by
  simp [emit_cond, h]

theorem emit_cond_false_of_depth (cfg : ScanCfg) (segs : List String)
    (h1 : 0 < cfg.max_depth) (h2 : cfg.max_depth < get_depth segs) :
    emit_cond cfg segs = false := by
  simp [emit_cond, h1, h2]

mutual
theorem skip_subtree_empty (cfg : ScanCfg) (t : FSTree) : ∀ (segs : List String),
    wfNames t = true →
    should_skip cfg.skips (render cfg.mount segs) = true →
    strEndsWith (render cfg.mount segs) "/" = false →
    emitEntries cfg t segs = [] := by
  cases t with
  | node n l fs sd =>
    cases l with
    | false => intro segs _ _ _; rfl
    | true =>
      intro segs hwf hsk hee
      rw [emitEntries, if_neg (by simp [emit_cond_false_of_skip cfg segs hsk])]
      rw [List.append_nil]
      exact skip_forest_empty cfg sd segs (by simpa [wfNames] using hwf) hsk hee

theorem skip_forest_empty (cfg : ScanCfg) : ∀ (sd : List FSTree) (segs : List String),
    wfForestNames sd = true →
    should_skip cfg.skips (render cfg.mount segs) = true →
    strEndsWith (render cfg.mount segs) "/" = false →
    emitForest cfg sd segs = []
  | [], _ => by intro _ _ _; rfl
  | c :: cs, segs => by
    intro hwf hsk hee
    rw [wfForestNames, Bool.and_eq_true, Bool.and_eq_true] at hwf
    have hs : should_skip cfg.skips (render cfg.mount (segs ++ [c.name])) = true := by
      rw [render_append]
      exact skip_step _ _ _ hsk hee
    have he : strEndsWith (render cfg.mount (segs ++ [c.name])) "/" = false := by
      rw [render_append]
      exact pjoin_not_endsWith _ _ hwf.1.1
    rw [emitForest, skip_subtree_empty cfg c (segs ++ [c.name]) hwf.1.2 hs he,
      List.nil_append]
    exact skip_forest_empty cfg cs segs hwf.2 hsk hee
end

mutual
theorem depth_subtree_empty (cfg : ScanCfg) (t : FSTree) : ∀ (segs : List String),
    0 < cfg.max_depth → cfg.max_depth < segs.length →
    emitEntries cfg t segs = [] := by
  cases t with
  | node n l fs sd =>
    cases l with
    | false => intro segs _ _; rfl
    | true =>
      intro segs h1 h2
      rw [emitEntries, if_neg (by simp [emit_cond_false_of_depth cfg segs h1 h2])]
      rw [List.append_nil]
      exact depth_forest_empty cfg sd segs h1 h2

theorem depth_forest_empty (cfg : ScanCfg) : ∀ (sd : List FSTree) (segs : List String),
    0 < cfg.max_depth → cfg.max_depth < segs.length → emitForest cfg sd segs = []
  | [], _ => by intro _ _; rfl
  | c :: cs, segs => by
    intro h1 h2
    rw [emitForest,
      depth_subtree_empty cfg c (segs ++ [c.name]) h1 (by simp; omega),
      List.nil_append]
    exact depth_forest_empty cfg cs segs h1 h2
end

/-- A child for which the loop stores no entry has an empty emitted list. -/
theorem unemitted_child_empty (cfg : ScanCfg) (c : FSTree) (segs : List String)
    (hgn : goodName c.name = true) (hwf : wfNames c = true)
    (hne : ¬(c.listable = true ∧ emit_cond cfg (segs ++ [c.name]) = true)) :
    emitEntries cfg c (segs ++ [c.name]) = [] := by
  by_cases hl : c.listable = true
  · have hec : emit_cond cfg (segs ++ [c.name]) = false := by
      cases h : emit_cond cfg (segs ++ [c.name])
      · rfl
      · exact absurd ⟨hl, h⟩ hne
    rcases emit_cond_false_cases cfg (segs ++ [c.name]) hec with hsk | hd
    · refine skip_subtree_empty cfg c (segs ++ [c.name]) hwf hsk ?_
      rw [render_append]
      exact pjoin_not_endsWith _ _ hgn
    · exact depth_subtree_empty cfg c (segs ++ [c.name]) hd.1
        (by simpa [get_depth] using hd.2)
  · exact emit_unlistable cfg c _ (by simpa using hl)

/-- The `dir_count` of the reference aggregate counts exactly the emitted
strict descendants, each once. -/
theorem aggKids_len (cfg : ScanCfg) : ∀ (sd : List FSTree) (segs : List String),
    wfForestNames sd = true →
    (aggKids cfg sd segs).2.2 = (emitForest cfg sd segs).length
  | [], _ => by intro _; rfl
  | .node nn ll ffs ssd :: cs, segs => by
    intro hwf
    rw [wfForestNames, Bool.and_eq_true, Bool.and_eq_true] at hwf
    rw [emitForest, aggKids]
    by_cases hce : ((FSTree.node nn ll ffs ssd).listable &&
        emit_cond cfg (segs ++ [(FSTree.node nn ll ffs ssd).name])) = true
    · rw [if_pos hce]
      have hl : ll = true := by
        simpa [FSTree.listable] using (Bool.and_eq_true _ _ |>.mp hce).1
      have he : emit_cond cfg (segs ++ [nn]) = true := by
        simpa [FSTree.name] using (Bool.and_eq_true _ _ |>.mp hce).2
      subst hl
      have hc_emit : emitEntries cfg (.node nn true ffs ssd)
          (segs ++ [(FSTree.node nn true ffs ssd).name]) =
            emitForest cfg ssd (segs ++ [nn]) ++
              [(render cfg.mount (segs ++ [nn]),
                agg cfg (.node nn true ffs ssd) (segs ++ [nn]))] := by
        simp only [FSTree.name]
        rw [emitEntries, if_pos he]
      rw [hc_emit]
      have hrec := aggKids_len cfg ssd (segs ++ [nn])
        (by simpa [wfNames] using hwf.1.2)
      have hrec2 := aggKids_len cfg cs segs hwf.2
      have hadc := agg_dir_count cfg (.node nn true ffs ssd)
        (segs ++ [(FSTree.node nn true ffs ssd).name])
      simp only [FSTree.subdirs, FSTree.name] at hadc
      simp only [List.length_append, List.length_cons, List.length_nil, FSTree.name,
        hadc, hrec, hrec2]
    · rw [if_neg hce]
      rw [unemitted_child_empty cfg (.node nn ll ffs ssd) segs hwf.1.1 hwf.1.2 (by
        intro hand
        simp only [FSTree.listable] at hand
        obtain ⟨h1, h2⟩ := hand
        exact hce (by rw [show (FSTree.node nn ll ffs ssd).listable = ll from rfl, h1,
          Bool.true_and]; exact h2))]
      rw [List.nil_append]
      exact aggKids_len cfg cs segs hwf.2

theorem length_filterMap_if {α β : Type} (p : α → Bool) (f : α → β) :
    ∀ l : List α,
      (l.filterMap (fun x => if p x then some (f x) else none)).length =
        (l.filter p).length := by
  intro l
  induction l with
  | nil => rfl
  | cons x xs ih =>
    by_cases hx : p x = true
    · simp [List.filterMap_cons, List.filter_cons, hx, ih]
    · simp [List.filterMap_cons, List.filter_cons, hx, ih]

/-- Emitting a forest stores one entry per visited, non-excluded directory. -/
theorem emitForest_length (cfg : ScanCfg) (sd : List FSTree) (segs : List String) :
    (emitForest cfg sd segs).length =
      ((walkForest sd segs).filter (fun v => emit_cond cfg v.segs)).length := by
  rw [emitForest_eq_walk]
  exact length_filterMap_if (fun v : WalkItem => emit_cond cfg v.segs)
    (fun v : WalkItem => (render cfg.mount v.segs, agg cfg v.node v.segs)) _

/-- In the final entry list, the path of an emitted child resolves to that
child's aggregate entry. -/
theorem child_entry_found (cfg : ScanCfg) (t : FSTree) (segs0 : List String)
    (hnd : (allPaths cfg.mount t segs0).Nodup)
    (w : WalkItem) (hw : w ∈ t.walk segs0) (c : FSTree) (hc : c ∈ w.node.subdirs)
    (hcl : c.listable = true) (hce : emit_cond cfg (w.segs ++ [c.name]) = true) :
    ((emitEntries cfg t segs0).map Prod.snd).find?
        (fun e => e.path == render cfg.mount (w.segs ++ [c.name])) =
      some (agg cfg c (w.segs ++ [c.name])) := by
  have hwc : (⟨w.segs ++ [c.name], c⟩ : WalkItem) ∈ t.walk segs0 :=
    walk_mem_child t segs0 w hw c hc hcl
  have hpr0 : (render cfg.mount (w.segs ++ [c.name]), agg cfg c (w.segs ++ [c.name])) ∈
      emitEntries cfg t segs0 := by
    rw [emit_eq_walk]
    exact List.mem_filterMap.mpr ⟨⟨w.segs ++ [c.name], c⟩, hwc, by simp [hce]⟩
  refine find?_entry_eq_some _ _ _ (List.mem_map.mpr ⟨_, hpr0, rfl⟩) ?_ ?_
  · simp [agg_path]
  · intro x hx hpx
    obtain ⟨pr, hpr, hx2⟩ := List.mem_map.mp hx
    have hpath : x.path = render cfg.mount (w.segs ++ [c.name]) := by simpa using hpx
    have hkey : pr.1 = render cfg.mount (w.segs ++ [c.name]) := by
      rw [← emit_pair_path cfg t segs0 pr hpr, hx2, hpath]
    have heq := emitUnique_tree cfg t segs0 hnd pr hpr _ hpr0 (by rw [hkey])
    rw [← hx2, heq]

/-- In the final entry list, the path of a child the loop did not store
resolves to nothing. -/
theorem child_entry_absent (cfg : ScanCfg) (t : FSTree) (segs0 : List String)
    (hnd : (allPaths cfg.mount t segs0).Nodup)
    (w : WalkItem) (hw : w ∈ t.walk segs0) (c : FSTree) (hc : c ∈ w.node.subdirs)
    (hne : ¬(c.listable = true ∧ emit_cond cfg (w.segs ++ [c.name]) = true)) :
    ((emitEntries cfg t segs0).map Prod.snd).find?
        (fun e => e.path == render cfg.mount (w.segs ++ [c.name])) = none := by
  rw [List.find?_eq_none]
  intro x hx hpx
  obtain ⟨pr, hpr, hx2⟩ := List.mem_map.mp hx
  have hpath : x.path = render cfg.mount (w.segs ++ [c.name]) := by simpa using hpx
  exact unemitted_child_no_key cfg t segs0 hnd w hw c hc hne pr hpr
    (by rw [← emit_pair_path cfg t segs0 pr hpr, hx2, hpath])

/-- The child aggregates the loop adds equal per-child lookups into any entry
list that resolves every child path correctly. -/
theorem aggKids_children (cfg : ScanCfg) (E : List Entry) (segs : List String) :
    ∀ sd : List FSTree,
    (∀ c ∈ sd,
      (c.listable = true ∧ emit_cond cfg (segs ++ [c.name]) = true →
        E.find? (fun e => e.path == render cfg.mount (segs ++ [c.name])) =
          some (agg cfg c (segs ++ [c.name]))) ∧
      (¬(c.listable = true ∧ emit_cond cfg (segs ++ [c.name]) = true) →
        E.find? (fun e => e.path == render cfg.mount (segs ++ [c.name])) = none)) →
    (aggKids cfg sd segs).1 =
        (sd.map (fun c => childSizeIn E (render cfg.mount (segs ++ [c.name])))).sum ∧
    (aggKids cfg sd segs).2.1 =
        (sd.map (fun c => childFilesIn E (render cfg.mount (segs ++ [c.name])))).sum ∧
    (aggKids cfg sd segs).2.2 =
        (sd.map (fun c => childDirsIn E (render cfg.mount (segs ++ [c.name])))).sum := by
  intro sd
  induction sd with
  | nil => intro _; exact ⟨rfl, rfl, rfl⟩
  | cons c cs ih =>
    intro h
    obtain ⟨hrec1, hrec2, hrec3⟩ := ih (fun d hd => h d (List.mem_cons_of_mem _ hd))
    have hc := h c (List.mem_cons_self _ _)
    rw [aggKids]
    by_cases hce : (c.listable && emit_cond cfg (segs ++ [c.name])) = true
    · obtain ⟨h1, h2⟩ := Bool.and_eq_true _ _ |>.mp hce
      have hfind := hc.1 ⟨h1, h2⟩
      have hsz : childSizeIn E (render cfg.mount (segs ++ [c.name])) =
          (agg cfg c (segs ++ [c.name])).size := by
        simp only [childSizeIn, hfind]
      have hfc : childFilesIn E (render cfg.mount (segs ++ [c.name])) =
          (agg cfg c (segs ++ [c.name])).file_count := by
        simp only [childFilesIn, hfind]
      have hdc : childDirsIn E (render cfg.mount (segs ++ [c.name])) =
          (agg cfg c (segs ++ [c.name])).dir_count + 1 := by
        simp only [childDirsIn, hfind]
      rw [if_pos hce]
      simp only [List.map_cons, List.sum_cons, hsz, hfc, hdc]
      refine ⟨?_, ?_, ?_⟩ <;> simp only [← hrec1, ← hrec2, ← hrec3] <;> omega
    · have hfind := hc.2 (by
        intro hand
        exact hce (by rw [hand.1, hand.2]; rfl))
      have hsz : childSizeIn E (render cfg.mount (segs ++ [c.name])) = 0 := by
        simp only [childSizeIn, hfind]
      have hfc : childFilesIn E (render cfg.mount (segs ++ [c.name])) = 0 := by
        simp only [childFilesIn, hfind]
      have hdc : childDirsIn E (render cfg.mount (segs ++ [c.name])) = 0 := by
        simp only [childDirsIn, hfind]
      rw [if_neg hce]
      simp only [List.map_cons, List.sum_cons, hsz, hfc, hdc]
      refine ⟨?_, ?_, ?_⟩ <;> simp only [← hrec1, ← hrec2, ← hrec3] <;> omega

/-- C1: every directory entry a completed scan stores aggregates exactly as
`scanner.py` lines 122–166 compute it: `size` is the lstat sizes of the
directory's own files plus the stored `size` of each immediate child whose
path (`os.path.join(root, dirname)`) resolves in the final entry list (zero
contribution when it does not); `file_count` aggregates the same way from
successful lstats; `dir_count` sums each resolved child's `dir_count + 1`,
and equals the number of visited, non-excluded descendant directories, so it
counts each such descendant exactly once. -/
theorem C1_entry_aggregation (sp : List String) (md : Nat) (mount : String)
    (t : FSTree) (db : DB) (now : Nat)
    (hnd : (allPaths mount t []).Nodup) (hwf : db.wf) (hwfn : wfNames t = true) :
    ∀ e ∈ ((scan sp md mount (some t) (fun _ => false) db now).2).entriesOf db.nextId,
      ∃ w, w ∈ FSTree.walk t [] ∧ w.node.listable = true ∧
        emit_cond ⟨mount, skipSet sp, md⟩ w.segs = true ∧
        e.path = render mount w.segs ∧
        e.size = fileSizeSum w.node.files +
          (w.node.subdirs.map (fun c =>
            childSizeIn
              (((scan sp md mount (some t) (fun _ => false) db now).2).entriesOf db.nextId)
              (pjoin e.path c.name))).sum ∧
        e.file_count = fileOkCount w.node.files +
          (w.node.subdirs.map (fun c =>
            childFilesIn
              (((scan sp md mount (some t) (fun _ => false) db now).2).entriesOf db.nextId)
              (pjoin e.path c.name))).sum ∧
        e.dir_count =
          (w.node.subdirs.map (fun c =>
            childDirsIn
              (((scan sp md mount (some t) (fun _ => false) db now).2).entriesOf db.nextId)
              (pjoin e.path c.name))).sum ∧
        e.dir_count = ((walkForest w.node.subdirs w.segs).filter
          (fun v => emit_cond ⟨mount, skipSet sp, md⟩ v.segs)).length := by
  intro e he
  set cfg : ScanCfg := ⟨mount, skipSet sp, md⟩ with hcfg
  have hmount : cfg.mount = mount := rfl
  have hE : ((scan sp md mount (some t) (fun _ => false) db now).2).entriesOf db.nextId =
      (emitEntries cfg t []).map Prod.snd := scan_entriesOf sp md mount t db now hnd hwf
  rw [hE] at he
  obtain ⟨pr, hpr, hpre⟩ := List.mem_map.mp he
  have hprw := hpr
  rw [emit_eq_walk] at hprw
  obtain ⟨w, hw, hfw⟩ := List.mem_filterMap.mp hprw
  cases hec : emit_cond cfg w.segs with
  | false =>
    rw [if_neg (by simp [hec])] at hfw
    cases hfw
  | true =>
    rw [if_pos hec] at hfw
    have hpr_eq : (render cfg.mount w.segs, agg cfg w.node w.segs) = pr :=
      Option.some_inj.mp hfw
    rw [← hpr_eq] at hpr
    have he_eq : e = agg cfg w.node w.segs := by rw [← hpre, ← hpr_eq]
    have hpath : e.path = render mount w.segs := by rw [he_eq, agg_path, hmount]
    have hnd' : (allPaths cfg.mount t []).Nodup := by rw [hmount]; exact hnd
    have hfind : ∀ c ∈ w.node.subdirs,
        (c.listable = true ∧ emit_cond cfg (w.segs ++ [c.name]) = true →
          ((emitEntries cfg t []).map Prod.snd).find?
              (fun e => e.path == render cfg.mount (w.segs ++ [c.name])) =
            some (agg cfg c (w.segs ++ [c.name]))) ∧
        (¬(c.listable = true ∧ emit_cond cfg (w.segs ++ [c.name]) = true) →
          ((emitEntries cfg t []).map Prod.snd).find?
              (fun e => e.path == render cfg.mount (w.segs ++ [c.name])) = none) := by
      intro c hc
      exact ⟨fun h => child_entry_found cfg t [] hnd' w hw c hc h.1 h.2,
             fun hne => child_entry_absent cfg t [] hnd' w hw c hc hne⟩
    obtain ⟨hs, hf, hd⟩ := aggKids_children cfg ((emitEntries cfg t []).map Prod.snd)
      w.segs w.node.subdirs hfind
    simp only [hmount] at hs hf hd
    have hwfw : wfNames w.node = true := wf_walk t [] hwfn w hw
    have hwfsd : wfForestNames w.node.subdirs = true := by
      cases hnode : w.node with
      | node nn ll ffs ssd =>
        rw [hnode] at hwfw
        simpa [wfNames, FSTree.subdirs] using hwfw
    refine ⟨w, hw, walk_listable t [] w hw, hec, hpath, ?_, ?_, ?_, ?_⟩
    · simp only [hE, hpath, ← render_append]
      rw [he_eq, agg_size, hs]
    · simp only [hE, hpath, ← render_append]
      rw [he_eq, agg_file_count, hf]
    · simp only [hE, hpath, ← render_append]
      rw [he_eq, agg_dir_count, hd]
    · rw [he_eq, agg_dir_count, aggKids_len cfg w.node.subdirs w.segs hwfsd,
        emitForest_length]

set_option maxRecDepth 10000 in
/-- Witness for `C1_entry_aggregation`: the root entry of the scan of
`exTree` (which is stored) satisfies the aggregation invariant. -/
theorem C1_entry_aggregation_witness :
    ((allPaths "/m" exTree []).Nodup ∧ emptyDB.wf ∧ wfNames exTree = true ∧
      agg ⟨"/m", skipSet [], 0⟩ exTree [] ∈
        ((scan [] 0 "/m" (some exTree) (fun _ => false) emptyDB 1).2).entriesOf
          emptyDB.nextId) ∧
    (∃ w, w ∈ FSTree.walk exTree [] ∧ w.node.listable = true ∧
      emit_cond ⟨"/m", skipSet [], 0⟩ w.segs = true ∧
      (agg ⟨"/m", skipSet [], 0⟩ exTree []).path = render "/m" w.segs ∧
      (agg ⟨"/m", skipSet [], 0⟩ exTree []).size = fileSizeSum w.node.files +
        (w.node.subdirs.map (fun c =>
          childSizeIn
            (((scan [] 0 "/m" (some exTree) (fun _ => false) emptyDB 1).2).entriesOf
              emptyDB.nextId)
            (pjoin (agg ⟨"/m", skipSet [], 0⟩ exTree []).path c.name))).sum ∧
      (agg ⟨"/m", skipSet [], 0⟩ exTree []).file_count = fileOkCount w.node.files +
        (w.node.subdirs.map (fun c =>
          childFilesIn
            (((scan [] 0 "/m" (some exTree) (fun _ => false) emptyDB 1).2).entriesOf
              emptyDB.nextId)
            (pjoin (agg ⟨"/m", skipSet [], 0⟩ exTree []).path c.name))).sum ∧
      (agg ⟨"/m", skipSet [], 0⟩ exTree []).dir_count =
        (w.node.subdirs.map (fun c =>
          childDirsIn
            (((scan [] 0 "/m" (some exTree) (fun _ => false) emptyDB 1).2).entriesOf
              emptyDB.nextId)
            (pjoin (agg ⟨"/m", skipSet [], 0⟩ exTree []).path c.name))).sum ∧
      (agg ⟨"/m", skipSet [], 0⟩ exTree []).dir_count =
        ((walkForest w.node.subdirs w.segs).filter
          (fun v => emit_cond ⟨"/m", skipSet [], 0⟩ v.segs)).length) := by
  refine ⟨⟨by decide, by decide, by decide, by decide⟩, ?_⟩
  exact C1_entry_aggregation [] 0 "/m" exTree emptyDB 1 (by decide) (by decide)
    (by decide) (agg ⟨"/m", skipSet [], 0⟩ exTree []) (by decide)

/-- A subtree that emits nothing has `emit_cond` false at each visited item. -/
theorem emit_cond_false_of_empty (cfg : ScanCfg) (t : FSTree) (segs : List String)
    (h : emitEntries cfg t segs = []) :
    ∀ w ∈ t.walk segs, emit_cond cfg w.segs = false := by
  rw [emit_eq_walk] at h
  intro w hw
  have hn := (List.filterMap_eq_nil.mp h) w hw
  cases hec : emit_cond cfg w.segs with
  | false => rfl
  | true => rw [if_pos hec] at hn; cases hn

/-- A subtree that emits nothing contributes nothing to any of the running
`stats` totals. -/
theorem walkSums_zero (cfg : ScanCfg) (t : FSTree) (segs : List String)
    (h : emitEntries cfg t segs = []) :
    ((t.walk segs).map (itemSize cfg)).sum = 0 ∧
    ((t.walk segs).map (itemFiles cfg)).sum = 0 ∧
    ((t.walk segs).map (itemDirs cfg)).sum = 0 := by
  have hz := emit_cond_false_of_empty cfg t segs h
  refine ⟨?_, ?_, ?_⟩ <;>
    refine List.sum_eq_zero ?_ <;>
    · intro x hx
      obtain ⟨w, hw, rfl⟩ := List.mem_map.mp hx
      simp [itemSize, itemFiles, itemDirs, hz w hw]

mutual
/-- For an emitted directory, the `stats` contributions of its whole walk
equal its aggregate entry's fields (`total_dirs` counting the directory
itself on top of `dir_count`). -/
theorem walkSums_tree (cfg : ScanCfg) (t : FSTree) : ∀ (segs : List String),
    wfNames t = true → t.listable = true → emit_cond cfg segs = true →
    ((t.walk segs).map (itemSize cfg)).sum = (agg cfg t segs).size ∧
    ((t.walk segs).map (itemFiles cfg)).sum = (agg cfg t segs).file_count ∧
    ((t.walk segs).map (itemDirs cfg)).sum = (agg cfg t segs).dir_count + 1 := by
  cases t with
  | node n l fs sd =>
    cases l with
    | false => intro segs _ hl; cases hl
    | true =>
      intro segs hwf _ he
      have hrec := walkSums_forest cfg sd segs (by simpa [wfNames] using hwf)
      rw [FSTree.walk]
      simp only [List.map_append, List.sum_append, List.map_cons, List.map_nil,
        List.sum_cons, List.sum_nil, itemSize, itemFiles, itemDirs, he, if_pos,
        agg, agg_size, agg_file_count, agg_dir_count]
      refine ⟨?_, ?_, ?_⟩ <;>
        simp only [hrec.1, hrec.2.1, hrec.2.2, FSTree.subdirs, FSTree.files] <;> omega

/-- Forest version of `walkSums_tree`: the contributions of sibling subtrees
equal the summed child aggregates the parent stores. -/
theorem walkSums_forest (cfg : ScanCfg) : ∀ (sd : List FSTree) (segs : List String),
    wfForestNames sd = true →
    ((walkForest sd segs).map (itemSize cfg)).sum = (aggKids cfg sd segs).1 ∧
    ((walkForest sd segs).map (itemFiles cfg)).sum = (aggKids cfg sd segs).2.1 ∧
    ((walkForest sd segs).map (itemDirs cfg)).sum = (aggKids cfg sd segs).2.2
  | [], _ => by intro _; exact ⟨rfl, rfl, rfl⟩
  | c :: cs, segs => by
    intro hwf
    rw [wfForestNames, Bool.and_eq_true, Bool.and_eq_true] at hwf
    have hrec2 := walkSums_forest cfg cs segs hwf.2
    rw [walkForest, aggKids]
    simp only [List.map_append, List.sum_append]
    by_cases hce : (c.listable && emit_cond cfg (segs ++ [c.name])) = true
    · obtain ⟨h1, h2⟩ := Bool.and_eq_true _ _ |>.mp hce
      have hrec1 := walkSums_tree cfg c (segs ++ [c.name]) hwf.1.2 h1 h2
      rw [if_pos hce]
      refine ⟨?_, ?_, ?_⟩ <;>
        simp only [hrec1.1, hrec1.2.1, hrec1.2.2, hrec2.1, hrec2.2.1, hrec2.2.2] <;>
        omega
    · have hne : ¬(c.listable = true ∧ emit_cond cfg (segs ++ [c.name]) = true) := by
        intro hand
        exact hce (by rw [hand.1, hand.2]; rfl)
      have hz := walkSums_zero cfg c (segs ++ [c.name])
        (unemitted_child_empty cfg c segs hwf.1.1 hwf.1.2 hne)
      rw [if_neg hce]
      refine ⟨?_, ?_, ?_⟩ <;>
        simp only [hz.1, hz.2.1, hz.2.2, hrec2.1, hrec2.2.1, hrec2.2.2] <;> omega
end

/-- C10: when a scan completes without cancellation and its root directory is
neither skipped nor unlistable, the persisted snapshot totals agree with the
root's stored entry: `total_size` is its `size`, `total_files` its
`file_count`, and `total_dirs` its `dir_count + 1` — the root itself plus
each emitted descendant directory counted once. -/
theorem C10_snapshot_totals (sp : List String) (md : Nat) (mount : String)
    (t : FSTree) (db : DB) (now : Nat)
    (hnd : (allPaths mount t []).Nodup) (hwf : db.wf) (hwfn : wfNames t = true)
    (hl : t.listable = true) (hsk : should_skip (skipSet sp) mount = false) :
    ∃ e ∈ ((scan sp md mount (some t) (fun _ => false) db now).2).entriesOf db.nextId,
      e.path = mount ∧
      ((scan sp md mount (some t) (fun _ => false) db now).2).snapshots.find?
          (fun r => r.id == db.nextId) =
        some { id := db.nextId, mount_point := mount, started_at := now,
               completed_at := some now,
               total_size := e.size, total_files := e.file_count,
               total_dirs := e.dir_count + 1, status := "completed" } := by
  set cfg : ScanCfg := ⟨mount, skipSet sp, md⟩ with hcfg
  have he : emit_cond cfg [] = true := by
    simp [emit_cond, render, get_depth, hsk]
  refine ⟨agg cfg t [], ?_, ?_, ?_⟩
  · rw [scan_entriesOf sp md mount t db now hnd hwf]
    exact List.mem_map.mpr ⟨_, emit_own_mem cfg t [] hl he, rfl⟩
  · rw [agg_path]
    rfl
  · rw [scan_snapshot_row sp md mount t db now hwf]
    have hsums := walkSums_tree cfg t [] hwfn hl he
    rw [hsums.1, hsums.2.1, hsums.2.2]

set_option maxRecDepth 10000 in
/-- Witness for `C10_snapshot_totals`: the scan of `exTree` stores a root
entry at `/m` whose aggregates reappear in the completed snapshot row. -/
theorem C10_snapshot_totals_witness :
    ((allPaths "/m" exTree []).Nodup ∧ emptyDB.wf ∧ wfNames exTree = true ∧
      FSTree.listable exTree = true ∧ should_skip (skipSet []) "/m" = false) ∧
    ∃ e ∈ ((scan [] 0 "/m" (some exTree) (fun _ => false) emptyDB 1).2).entriesOf
        emptyDB.nextId,
      e.path = "/m" ∧
      ((scan [] 0 "/m" (some exTree) (fun _ => false) emptyDB 1).2).snapshots.find?
          (fun r => r.id == emptyDB.nextId) =
        some { id := emptyDB.nextId, mount_point := "/m", started_at := 1,
               completed_at := some 1,
               total_size := e.size, total_files := e.file_count,
               total_dirs := e.dir_count + 1, status := "completed" } :=
  ⟨⟨by decide, by decide, by decide, by decide, by decide⟩,
   C10_snapshot_totals [] 0 "/m" exTree emptyDB 1 (by decide) (by decide) (by decide)
     (by decide) (by decide)⟩

/-! Claim C9 machinery: inserting one unreadable file into a visited
directory and comparing the two scans. -/

theorem fileSizeSum_insert (f : FileEnt) (ty msg : String) (hf : f.stat = .err ty msg)
    (fs : List FileEnt) (pos : Nat) :
    fileSizeSum (fs.take pos ++ f :: fs.drop pos) = fileSizeSum fs := by
  conv_rhs => rw [← List.take_append_drop pos fs]
  simp [fileSizeSum, hf]

theorem fileOkCount_insert (f : FileEnt) (ty msg : String) (hf : f.stat = .err ty msg)
    (fs : List FileEnt) (pos : Nat) :
    fileOkCount (fs.take pos ++ f :: fs.drop pos) = fileOkCount fs := by
  conv_rhs => rw [← List.take_append_drop pos fs]
  simp [fileOkCount, List.filter_append, List.filter_cons, hf, -List.take_append_drop]

theorem fileErrList_insert (sid : Nat) (root : String) (f : FileEnt) (ty msg : String)
    (hf : f.stat = .err ty msg) (fs : List FileEnt) (pos : Nat) :
    fileErrList sid root (fs.take pos ++ f :: fs.drop pos) =
      fileErrList sid root (fs.take pos) ++
        (⟨sid, pjoin root f.name, ty, msg⟩ : ScanError) :: fileErrList sid root (fs.drop pos) ∧
    fileErrList sid root fs =
      fileErrList sid root (fs.take pos) ++ fileErrList sid root (fs.drop pos) := by
  constructor
  · simp [fileErrList, List.filterMap_append, List.filterMap_cons, hf]
  · conv_lhs => rw [← List.take_append_drop pos fs]
    simp [fileErrList, List.filterMap_append, -List.take_append_drop]

theorem insertFileAt_name (f : FileEnt) : ∀ (loc : List Nat) (pos : Nat) (t : FSTree),
    (insertFileAt f loc pos t).name = t.name
  | [], _, .node _ _ _ _ => rfl
  | _ :: _, _, .node _ _ _ _ => rfl

theorem insertFileAt_listable (f : FileEnt) : ∀ (loc : List Nat) (pos : Nat) (t : FSTree),
    (insertFileAt f loc pos t).listable = t.listable
  | [], _, .node _ _ _ _ => rfl
  | _ :: _, _, .node _ _ _ _ => rfl

theorem aggKids_modifyNth (cfg : ScanCfg) (g : FSTree → FSTree)
    (hname : ∀ x, (g x).name = x.name)
    (hlist : ∀ x, (g x).listable = x.listable)
    (hagg : ∀ (x : FSTree) (s : List String), agg cfg (g x) s = agg cfg x s) :
    ∀ (sd : List FSTree) (i : Nat) (segs : List String),
      aggKids cfg (modifyNth g sd i) segs = aggKids cfg sd segs
  | [], _, _ => rfl
  | c :: cs, 0, segs => by
    simp only [modifyNth, aggKids, hname, hlist, hagg]
  | c :: cs, i + 1, segs => by
    simp only [modifyNth, aggKids]
    rw [aggKids_modifyNth cfg g hname hlist hagg cs i segs]

theorem emitForest_modifyNth (cfg : ScanCfg) (g : FSTree → FSTree)
    (hname : ∀ x, (g x).name = x.name)
    (hemit : ∀ (x : FSTree) (s : List String),
      emitEntries cfg (g x) s = emitEntries cfg x s) :
    ∀ (sd : List FSTree) (i : Nat) (segs : List String),
      emitForest cfg (modifyNth g sd i) segs = emitForest cfg sd segs
  | [], _, _ => rfl
  | c :: cs, 0, segs => by
    simp only [modifyNth, emitForest, hname, hemit]
  | c :: cs, i + 1, segs => by
    simp only [modifyNth, emitForest]
    rw [emitForest_modifyNth cfg g hname hemit cs i segs]

theorem allForest_modifyNth (mount : String) (g : FSTree → FSTree)
    (hname : ∀ x, (g x).name = x.name)
    (hall : ∀ (x : FSTree) (s : List String),
      allPaths mount (g x) s = allPaths mount x s) :
    ∀ (sd : List FSTree) (i : Nat) (segs : List String),
      allForest mount (modifyNth g sd i) segs = allForest mount sd segs
  | [], _, _ => rfl
  | c :: cs, 0, segs => by
    simp only [modifyNth, allForest, hname, hall]
  | c :: cs, i + 1, segs => by
    simp only [modifyNth, allForest]
    rw [allForest_modifyNth mount g hname hall cs i segs]

/-- Inserting a failing file changes neither any aggregate entry nor the
emitted entry list: the failing lstat contributes no bytes and no file
count. -/
theorem insertErr_agg (cfg : ScanCfg) (f : FileEnt) (ty msg : String)
    (hf : f.stat = .err ty msg) :
    ∀ (loc : List Nat) (pos : Nat) (t : FSTree) (segs : List String),
      agg cfg (insertFileAt f loc pos t) segs = agg cfg t segs ∧
      emitEntries cfg (insertFileAt f loc pos t) segs = emitEntries cfg t segs
  | [], pos, .node n l fs sd, segs => by
    have hagg : agg cfg (insertFileAt f [] pos (.node n l fs sd)) segs =
        agg cfg (.node n l fs sd) segs := by
      simp only [insertFileAt, agg, fileSizeSum_insert f ty msg hf fs pos,
        fileOkCount_insert f ty msg hf fs pos]
    refine ⟨hagg, ?_⟩
    cases l with
    | false => rfl
    | true =>
      simp only [insertFileAt] at hagg ⊢
      rw [emitEntries, emitEntries, hagg]
  | i :: rest, pos, .node n l fs sd, segs => by
    have ih := insertErr_agg cfg f ty msg hf rest pos
    have hkids := aggKids_modifyNth cfg (insertFileAt f rest pos)
      (fun x => insertFileAt_name f rest pos x)
      (fun x => insertFileAt_listable f rest pos x)
      (fun x s => (ih x s).1) sd i segs
    have hagg : agg cfg (insertFileAt f (i :: rest) pos (.node n l fs sd)) segs =
        agg cfg (.node n l fs sd) segs := by
      simp only [insertFileAt, agg, hkids]
    refine ⟨hagg, ?_⟩
    cases l with
    | false => rfl
    | true =>
      have hforest := emitForest_modifyNth cfg (insertFileAt f rest pos)
        (fun x => insertFileAt_name f rest pos x)
        (fun x s => (ih x s).2) sd i segs
      simp only [insertFileAt] at hagg ⊢
      rw [emitEntries, emitEntries, hforest, hagg]

/-- Inserting a file anywhere leaves the path census unchanged. -/
theorem insertErr_allPaths (mount : String) (f : FileEnt) :
    ∀ (loc : List Nat) (pos : Nat) (t : FSTree) (segs : List String),
      allPaths mount (insertFileAt f loc pos t) segs = allPaths mount t segs
  | [], _, .node _ _ _ _, _ => rfl
  | i :: rest, pos, .node n l fs sd, segs => by
    simp only [insertFileAt, allPaths]
    rw [allForest_modifyNth mount (insertFileAt f rest pos)
      (fun x => insertFileAt_name f rest pos x)
      (fun x s => insertErr_allPaths mount f rest pos x s) sd i segs]

theorem forest_sums_modify (cfg : ScanCfg) (g : FSTree → FSTree)
    (hname : ∀ x, (g x).name = x.name)
    (hsum : ∀ (x : FSTree) (s : List String),
      (((g x).walk s).map (itemSize cfg)).sum = ((x.walk s).map (itemSize cfg)).sum ∧
      (((g x).walk s).map (itemFiles cfg)).sum = ((x.walk s).map (itemFiles cfg)).sum ∧
      (((g x).walk s).map (itemDirs cfg)).sum = ((x.walk s).map (itemDirs cfg)).sum) :
    ∀ (sd : List FSTree) (i : Nat) (segs : List String),
      ((walkForest (modifyNth g sd i) segs).map (itemSize cfg)).sum =
        ((walkForest sd segs).map (itemSize cfg)).sum ∧
      ((walkForest (modifyNth g sd i) segs).map (itemFiles cfg)).sum =
        ((walkForest sd segs).map (itemFiles cfg)).sum ∧
      ((walkForest (modifyNth g sd i) segs).map (itemDirs cfg)).sum =
        ((walkForest sd segs).map (itemDirs cfg)).sum
  | [], _, _ => ⟨rfl, rfl, rfl⟩
  | c :: cs, 0, segs => by
    simp only [modifyNth, walkForest, List.map_append, List.sum_append, hname]
    have h := hsum c (segs ++ [c.name])
    exact ⟨by rw [h.1], by rw [h.2.1], by rw [h.2.2]⟩
  | c :: cs, i + 1, segs => by
    simp only [modifyNth, walkForest, List.map_append, List.sum_append]
    have h := forest_sums_modify cfg g hname hsum cs i segs
    exact ⟨by rw [h.1], by rw [h.2.1], by rw [h.2.2]⟩

/-- Inserting a failing file leaves all three running `stats` totals of the
walk unchanged. -/
theorem insertErr_sums (cfg : ScanCfg) (f : FileEnt) (ty msg : String)
    (hf : f.stat = .err ty msg) :
    ∀ (loc : List Nat) (pos : Nat) (t : FSTree) (segs : List String),
      (((insertFileAt f loc pos t).walk segs).map (itemSize cfg)).sum =
        ((t.walk segs).map (itemSize cfg)).sum ∧
      (((insertFileAt f loc pos t).walk segs).map (itemFiles cfg)).sum =
        ((t.walk segs).map (itemFiles cfg)).sum ∧
      (((insertFileAt f loc pos t).walk segs).map (itemDirs cfg)).sum =
        ((t.walk segs).map (itemDirs cfg)).sum
  | [], pos, .node n l fs sd, segs => by
    cases l with
    | false => exact ⟨rfl, rfl, rfl⟩
    | true =>
      simp only [insertFileAt, FSTree.walk, List.map_append, List.sum_append,
        List.map_cons, List.map_nil, List.sum_cons, List.sum_nil,
        itemSize, itemFiles, itemDirs, FSTree.files]
      rw [fileSizeSum_insert f ty msg hf fs pos, fileOkCount_insert f ty msg hf fs pos]
      exact ⟨rfl, rfl, trivial⟩
  | i :: rest, pos, .node n l fs sd, segs => by
    cases l with
    | false => exact ⟨rfl, rfl, rfl⟩
    | true =>
      have h := forest_sums_modify cfg (insertFileAt f rest pos)
        (fun x => insertFileAt_name f rest pos x)
        (fun x s => insertErr_sums cfg f ty msg hf rest pos x s) sd i segs
      simp only [insertFileAt, FSTree.walk, List.map_append, List.sum_append,
        List.map_cons, List.map_nil, List.sum_cons, List.sum_nil,
        itemSize, itemFiles, itemDirs, FSTree.files]
      exact ⟨by rw [h.1], by rw [h.2.1], by rw [h.2.2]⟩

theorem itemsErrors_append (cfg : ScanCfg) (sid : Nat) (a b : List WalkItem) :
    itemsErrors cfg sid (a ++ b) = itemsErrors cfg sid a ++ itemsErrors cfg sid b := by
  simp [itemsErrors]

theorem itemsErrors_single (cfg : ScanCfg) (sid : Nat) (w : WalkItem) :
    itemsErrors cfg sid [w] = itemErrors cfg sid w := by
  simp [itemsErrors]

theorem forest_errors_modify (cfg : ScanCfg) (sid : Nat) (g : FSTree → FSTree)
    (hname : ∀ x, (g x).name = x.name) (err : ScanError) :
    ∀ (sd : List FSTree) (i : Nat) (c : FSTree) (segs : List String),
      sd[i]? = some c →
      (∃ E1 E2, itemsErrors cfg sid (c.walk (segs ++ [c.name])) = E1 ++ E2 ∧
        itemsErrors cfg sid ((g c).walk (segs ++ [c.name])) = E1 ++ err :: E2) →
      ∃ E1 E2, itemsErrors cfg sid (walkForest sd segs) = E1 ++ E2 ∧
        itemsErrors cfg sid (walkForest (modifyNth g sd i) segs) = E1 ++ err :: E2
  | [], i, c, segs => by intro h; simp at h
  | a :: cs, 0, c, segs => by
    intro hget hchild
    have hac : a = c := by simpa using hget
    subst hac
    obtain ⟨E1, E2, h1, h2⟩ := hchild
    refine ⟨E1, E2 ++ itemsErrors cfg sid (walkForest cs segs), ?_, ?_⟩
    · rw [walkForest, itemsErrors_append, h1, List.append_assoc]
    · rw [show modifyNth g (a :: cs) 0 = g a :: cs from rfl, walkForest,
        itemsErrors_append, hname, h2]
      simp [List.append_assoc]
  | a :: cs, i + 1, c, segs => by
    intro hget hchild
    have hget' : cs[i]? = some c := by simpa using hget
    obtain ⟨E1, E2, h1, h2⟩ :=
      forest_errors_modify cfg sid g hname err cs i c segs hget' hchild
    refine ⟨itemsErrors cfg sid (a.walk (segs ++ [a.name])) ++ E1, E2, ?_, ?_⟩
    · rw [walkForest, itemsErrors_append, h1, List.append_assoc]
    · rw [show modifyNth g (a :: cs) (i + 1) = a :: modifyNth g cs i from rfl,
        walkForest, itemsErrors_append, h2]
      simp [List.append_assoc]

/-- Inserting one failing file into the visited, non-excluded directory at
`loc` adds exactly one `scan_errors` row — with the failure's classification
and message, at the file's joined path — and changes nothing else in the
error log. -/
theorem insertErr_errors (cfg : ScanCfg) (sid : Nat) (f : FileEnt) (ty msg : String)
    (hf : f.stat = .err ty msg) :
    ∀ (loc : List Nat) (pos : Nat) (t : FSTree) (segs : List String)
      (d : FSTree) (dsegs : List String),
      getNode? t loc segs = some (d, dsegs) →
      listableAlong t loc = true →
      emit_cond cfg dsegs = true →
      ∃ E1 E2,
        itemsErrors cfg sid (t.walk segs) = E1 ++ E2 ∧
        itemsErrors cfg sid ((insertFileAt f loc pos t).walk segs) =
          E1 ++ (⟨sid, pjoin (render cfg.mount dsegs) f.name, ty, msg⟩ : ScanError) :: E2
  | [], pos, .node n l fs sd, segs, d, dsegs => by
    intro hget hla he
    have hd : FSTree.node n l fs sd = d ∧ segs = dsegs := by
      simpa [getNode?] using hget
    obtain ⟨hd1, hd2⟩ := hd
    subst hd2
    have hl : l = true := by simpa [listableAlong, FSTree.listable] using hla
    subst hl
    obtain ⟨hsplit1, hsplit2⟩ :=
      fileErrList_insert sid (render cfg.mount segs) f ty msg hf fs pos
    refine ⟨itemsErrors cfg sid (walkForest sd segs) ++
        fileErrList sid (render cfg.mount segs) (fs.take pos),
      fileErrList sid (render cfg.mount segs) (fs.drop pos), ?_, ?_⟩
    · rw [FSTree.walk, itemsErrors_append, itemsErrors_single]
      have hie : itemErrors cfg sid (⟨segs, FSTree.node n true fs sd⟩ : WalkItem) =
          fileErrList sid (render cfg.mount segs) fs := by
        simp [itemErrors, he, FSTree.files]
      rw [hie, hsplit2, List.append_assoc]
    · simp only [insertFileAt]
      rw [FSTree.walk, itemsErrors_append, itemsErrors_single]
      have hie : itemErrors cfg sid
          (⟨segs, FSTree.node n true (fs.take pos ++ f :: fs.drop pos) sd⟩ : WalkItem) =
          fileErrList sid (render cfg.mount segs) (fs.take pos ++ f :: fs.drop pos) := by
        simp [itemErrors, he, FSTree.files]
      rw [hie, hsplit1, List.append_assoc]
  | i :: rest, pos, .node n l fs sd, segs, d, dsegs => by
    intro hget hla he
    cases hsd : sd[i]? with
    | none => simp [getNode?, hsd] at hget
    | some c =>
      simp only [getNode?, hsd] at hget
      rw [listableAlong] at hla
      simp only [hsd] at hla
      obtain ⟨hl, hla2⟩ := Bool.and_eq_true _ _ |>.mp hla
      subst hl
      have hchild := insertErr_errors cfg sid f ty msg hf rest pos c
        (segs ++ [c.name]) d dsegs hget hla2 he
      obtain ⟨E1, E2, h1, h2⟩ := forest_errors_modify cfg sid (insertFileAt f rest pos)
        (fun x => insertFileAt_name f rest pos x)
        ⟨sid, pjoin (render cfg.mount dsegs) f.name, ty, msg⟩
        sd i c segs hsd hchild
      refine ⟨E1, E2 ++ itemErrors cfg sid (⟨segs, FSTree.node n true fs sd⟩ : WalkItem),
        ?_, ?_⟩
      · rw [FSTree.walk, itemsErrors_append, itemsErrors_single, h1, List.append_assoc]
      · simp only [insertFileAt]
        rw [FSTree.walk, itemsErrors_append, itemsErrors_single, h2]
        have hself : itemErrors cfg sid
            (⟨segs, FSTree.node n true fs (modifyNth (insertFileAt f rest pos) sd i)⟩ :
              WalkItem) =
            itemErrors cfg sid (⟨segs, FSTree.node n true fs sd⟩ : WalkItem) := by
          simp [itemErrors, FSTree.files]
        rw [hself]
        simp [List.append_assoc]

/-- C9: one file whose lstat fails inside a visited, non-excluded directory
adds exactly one ScanError row — carrying the failure's classification `ty`
and message `msg` at the file's joined path — while everything else is
unchanged: the stored entries are identical, the returned stats keep the same
byte total, file count and directory count (only the error counter grows by
one), and the snapshot row is the same completed row; the failure aborts
neither the directory, nor the scan, nor the snapshot. -/
theorem C9_single_file_failure (sp : List String) (md : Nat) (mount : String)
    (t : FSTree) (db : DB) (now : Nat)
    (f : FileEnt) (ty msg : String) (loc : List Nat) (pos : Nat)
    (d : FSTree) (dsegs : List String)
    (hf : f.stat = .err ty msg)
    (hget : getNode? t loc [] = some (d, dsegs))
    (hla : listableAlong t loc = true)
    (he : emit_cond ⟨mount, skipSet sp, md⟩ dsegs = true)
    (hnd : (allPaths mount t []).Nodup) (hwf : db.wf) :
    (∃ E1 E2,
      ((scan sp md mount (some t) (fun _ => false) db now).2).scan_errors =
        db.scan_errors ++ (E1 ++ E2) ∧
      ((scan sp md mount (some (insertFileAt f loc pos t)) (fun _ => false) db now).2).scan_errors =
        db.scan_errors ++
          (E1 ++ (⟨db.nextId, pjoin (render mount dsegs) f.name, ty, msg⟩ : ScanError) :: E2)) ∧
    ((scan sp md mount (some (insertFileAt f loc pos t)) (fun _ => false) db now).2).entriesOf
        db.nextId =
      ((scan sp md mount (some t) (fun _ => false) db now).2).entriesOf db.nextId ∧
    (∃ sz fc dc er,
      (scan sp md mount (some t) (fun _ => false) db now).1 =
        .ok ⟨sz, fc, dc, er⟩ ∧
      (scan sp md mount (some (insertFileAt f loc pos t)) (fun _ => false) db now).1 =
        .ok ⟨sz, fc, dc, er + 1⟩) ∧
    ((scan sp md mount (some (insertFileAt f loc pos t)) (fun _ => false) db now).2).snapshots.find?
        (fun r => r.id == db.nextId) =
      ((scan sp md mount (some t) (fun _ => false) db now).2).snapshots.find?
        (fun r => r.id == db.nextId) ∧
    (∃ r, ((scan sp md mount (some (insertFileAt f loc pos t)) (fun _ => false) db now).2).snapshots.find?
        (fun r => r.id == db.nextId) = some r ∧ r.status = "completed") := by
  set cfg : ScanCfg := ⟨mount, skipSet sp, md⟩ with hcfg
  have hmount : cfg.mount = mount := rfl
  have hnd' : (allPaths mount (insertFileAt f loc pos t) []).Nodup := by
    rw [insertErr_allPaths mount f loc pos t []]
    exact hnd
  have hsums := insertErr_sums cfg f ty msg hf loc pos t []
  have hagg := insertErr_agg cfg f ty msg hf loc pos t []
  obtain ⟨E1, E2, h1, h2⟩ :=
    insertErr_errors cfg db.nextId f ty msg hf loc pos t [] d dsegs hget hla he
  rw [hmount] at h2
  refine ⟨⟨E1, E2, ?_, ?_⟩, ?_, ?_, ?_, ?_⟩
  · rw [scan_errors_eq, h1]
  · rw [scan_errors_eq, h2]
  · rw [scan_entriesOf sp md mount (insertFileAt f loc pos t) db now hnd' hwf,
      scan_entriesOf sp md mount t db now hnd hwf, hagg.2]
  · refine ⟨((t.walk []).map (itemSize cfg)).sum, ((t.walk []).map (itemFiles cfg)).sum,
      ((t.walk []).map (itemDirs cfg)).sum,
      (itemsErrors cfg db.nextId (t.walk [])).length,
      scan_result_eq sp md mount t db now, ?_⟩
    have hl1 : (itemsErrors cfg db.nextId (t.walk [])).length = E1.length + E2.length := by
      rw [h1]
      simp
    have hl2 : (itemsErrors cfg db.nextId ((insertFileAt f loc pos t).walk [])).length =
        E1.length + (E2.length + 1) := by
      rw [h2]
      simp
    rw [scan_result_eq sp md mount (insertFileAt f loc pos t) db now]
    simp only [Except.ok.injEq, Stats.mk.injEq]
    refine ⟨hsums.1, hsums.2.1, hsums.2.2, ?_⟩
    rw [hl2, hl1]
    omega
  · rw [scan_snapshot_row sp md mount (insertFileAt f loc pos t) db now hwf,
      scan_snapshot_row sp md mount t db now hwf, hsums.1, hsums.2.1, hsums.2.2]
  · rw [scan_snapshot_row sp md mount (insertFileAt f loc pos t) db now hwf]
    exact ⟨_, rfl, rfl⟩

set_option maxRecDepth 10000 in
/-- Witness for `C9_single_file_failure`: inserting an unreadable file at the
front of `/m`'s own file list in `exTree`. -/
theorem C9_single_file_failure_witness :
    ((⟨"bad", .err "OSError" "io"⟩ : FileEnt).stat = .err "OSError" "io" ∧
      getNode? exTree [] [] = some (exTree, []) ∧
      listableAlong exTree [] = true ∧
      emit_cond ⟨"/m", skipSet [], 0⟩ [] = true ∧
      (allPaths "/m" exTree []).Nodup ∧ emptyDB.wf) ∧
    ((∃ E1 E2,
      ((scan [] 0 "/m" (some exTree) (fun _ => false) emptyDB 1).2).scan_errors =
        emptyDB.scan_errors ++ (E1 ++ E2) ∧
      ((scan [] 0 "/m" (some (insertFileAt ⟨"bad", .err "OSError" "io"⟩ [] 0 exTree))
          (fun _ => false) emptyDB 1).2).scan_errors =
        emptyDB.scan_errors ++
          (E1 ++ (⟨emptyDB.nextId, pjoin (render "/m" []) (FileEnt.name ⟨"bad", .err "OSError" "io"⟩),
            "OSError", "io"⟩ : ScanError) :: E2)) ∧
    ((scan [] 0 "/m" (some (insertFileAt ⟨"bad", .err "OSError" "io"⟩ [] 0 exTree))
        (fun _ => false) emptyDB 1).2).entriesOf emptyDB.nextId =
      ((scan [] 0 "/m" (some exTree) (fun _ => false) emptyDB 1).2).entriesOf emptyDB.nextId ∧
    (∃ sz fc dc er,
      (scan [] 0 "/m" (some exTree) (fun _ => false) emptyDB 1).1 = .ok ⟨sz, fc, dc, er⟩ ∧
      (scan [] 0 "/m" (some (insertFileAt ⟨"bad", .err "OSError" "io"⟩ [] 0 exTree))
          (fun _ => false) emptyDB 1).1 = .ok ⟨sz, fc, dc, er + 1⟩) ∧
    ((scan [] 0 "/m" (some (insertFileAt ⟨"bad", .err "OSError" "io"⟩ [] 0 exTree))
        (fun _ => false) emptyDB 1).2).snapshots.find? (fun r => r.id == emptyDB.nextId) =
      ((scan [] 0 "/m" (some exTree) (fun _ => false) emptyDB 1).2).snapshots.find?
        (fun r => r.id == emptyDB.nextId) ∧
    (∃ r, ((scan [] 0 "/m" (some (insertFileAt ⟨"bad", .err "OSError" "io"⟩ [] 0 exTree))
        (fun _ => false) emptyDB 1).2).snapshots.find? (fun r => r.id == emptyDB.nextId) =
      some r ∧ r.status = "completed")) :=
  ⟨⟨by decide, by decide, by decide, by decide, by decide, by decide⟩,
   C9_single_file_failure [] 0 "/m" exTree emptyDB 1 ⟨"bad", .err "OSError" "io"⟩
     "OSError" "io" [] 0 exTree [] (by decide) (by decide) (by decide) (by decide)
     (by decide) (by decide)⟩

/-- Witness for `C5_fatal_bookkeeping` at a concrete database and scan. -/
theorem C5_fatal_bookkeeping_witness :
    (scanExc [] 0 "/m" exTree 1 "disk I/O error" emptyDB 3).1 = .error "disk I/O error" ∧
    (∃ r, ((scanExc [] 0 "/m" exTree 1 "disk I/O error" emptyDB 3).2).snapshots.find?
            (fun r => r.id == emptyDB.nextId) = some r ∧
          r.status = "failed" ∧ r.mount_point = "/m" ∧ r.completed_at = some 3) ∧
    ((scanExc [] 0 "/m" exTree 1 "disk I/O error" emptyDB 3).2).scan_errors.getLast? =
      some ⟨emptyDB.nextId, "/", "FATAL", "disk I/O error"⟩ :=
  C5_fatal_bookkeeping [] 0 "/m" exTree 1 "disk I/O error" emptyDB 3 (by decide)

end DiskTrend
